import Mathlib

/-!
# OpenLoco `IndustryObject`: validator, decoder and unloader

A shallow embedding of `src/OpenLoco/src/Objects/IndustryObject.cpp`.

* Unsigned fields are natural numbers, the two cost factors (`int16_t`) are integers.
* A pointer into the decode buffer is the offset of the pointed-to byte from the start of
  the buffer handed to `load`; the null pointer is `none`.
* A fixed-capacity C array is a list; a range-for over the array visits every entry of the list.
* `load` returns in `Except LoadError`: a `subspan` beyond the remaining span, a read at or
  beyond the end of the buffer, a write beyond an array, and a failed `assert` are failures.
  The span type is not among the sources: `subspan` is the `advance` of the specification,
  which fails beyond the remaining length (`outOfBounds`). A read through a raw pointer of a
  byte that is not in the buffer is `readPastEnd`: the source does not guard such a read.
  An `assert` only fails where `NDEBUG` is not defined.
-/

namespace OpenLoco

/-! ## Machine integers -/

/-- Value of a C++ expression of type `int` (32 bits, two's complement). -/
def toInt32 (x : Int) : Int :=
  Int.bmod x 4294967296

/-- Values of type `int16_t`. -/
def IsInt16 (x : Int) : Prop :=
  -32768 ≤ x ∧ x ≤ 32767

instance (x : Int) : Decidable (IsInt16 x) := by
  unfold IsInt16; infer_instance

/-- Value stored by an assignment to a `uint8_t` lvalue. -/
def toUInt8 (x : Nat) : Nat :=
  x % 256

/-- Value stored by an assignment to a `uint32_t` lvalue. -/
def toUInt32 (x : Nat) : Nat :=
  x % 4294967296

/-! ## Data model -/

/-- The type `string_id`. -/
abbrev StringId := Nat

/-- A pointer into the decode buffer: the offset from the start of the buffer, `none` for
`nullptr`. -/
abbrev BufPtr := Option Nat

/-- An `ObjectHeader`, held as the raw bytes it is copied from. -/
structure ObjectHeader where
  bytes : List Nat
deriving DecidableEq

/-- An `ObjectManager::DependentObjects` sink; `load` only touches `required`. -/
structure DependentObjects where
  required : List ObjectHeader
deriving DecidableEq

/-- A `LoadedObjectHandle`; `load` only reads `id`. -/
structure LoadedObjectHandle where
  id : Nat
deriving DecidableEq

/-- The fields of `IndustryObject` that `validate`, `load`, `unload` and the cargo predicates
read or write. -/
structure IndustryObject where
  name : StringId
  var_02 : StringId
  nameClosingDown : StringId
  nameUpProduction : StringId
  nameDownProduction : StringId
  nameSingular : StringId
  namePlural : StringId
  var_0E : Nat
  var_12 : Nat
  var_16 : Nat
  var_1A : Nat
  var_1E : Nat
  var_1F : Nat
  buildingPartHeight : BufPtr
  buildingPartAnimations : BufPtr
  animationSequences : List BufPtr
  var_38 : BufPtr
  buildingParts : List BufPtr
  var_BC : Nat
  var_BD : Nat
  var_BE : BufPtr
  totalOfTypeInScenario : Nat
  costFactor : Int
  clearCostFactor : Int
  var_D6 : Nat
  var_DA : Nat
  producedCargoType : List Nat
  requiredCargoType : List Nat
  flags : Nat
  var_E8 : Nat
  var_E9 : Nat
  var_EA : Nat
  var_EC : Nat
  wallTypes : List Nat
  var_F1 : Nat
  var_F2 : Nat
deriving DecidableEq

namespace IndustryObject

/-! ## `IndustryObject::validate` -/

/-- The function `IndustryObject::validate`. The cost comparison is evaluated in `int`, to which
both `int16_t` operands are promoted. -/
def validate (o : IndustryObject) : Bool :=
  if o.var_1E = 0 then false
  else if o.var_1F = 0 ∨ o.var_1F > 31 then false
  else if o.var_BD < o.var_BC then false
  else if o.totalOfTypeInScenario = 0 ∨ o.totalOfTypeInScenario > 32 then false
  else if toInt32 (-o.clearCostFactor) > Int.tdiv (toInt32 (o.costFactor * 230)) 256 then false
  else if o.var_E8 > 8 then false
  else if ¬ (o.var_E9 = 1 ∨ o.var_E9 = 2 ∨ o.var_E9 = 4) then false
  else if o.var_EA ≠ 0xFF ∧ o.var_EA > 7 then false
  else if o.var_EC > 8 then false
  else if o.var_D6 > 100 then false
  else decide (o.var_DA ≤ 100)

/-- The cost rule in the words of the specification: exact integers, truncating division. -/
def CostRule (costFactor clearCostFactor : Int) : Prop :=
  -clearCostFactor ≤ Int.tdiv (costFactor * 230) 256

instance (c k : Int) : Decidable (CostRule c k) := by
  unfold CostRule; infer_instance

/-- The validation rules in the words of the specification. -/
def ValidRules (o : IndustryObject) : Prop :=
  o.var_1E ≠ 0 ∧ (1 ≤ o.var_1F ∧ o.var_1F ≤ 31) ∧ o.var_BD ≥ o.var_BC ∧
  (1 ≤ o.totalOfTypeInScenario ∧ o.totalOfTypeInScenario ≤ 32) ∧
  CostRule o.costFactor o.clearCostFactor ∧
  o.var_E8 ≤ 8 ∧ (o.var_E9 = 1 ∨ o.var_E9 = 2 ∨ o.var_E9 = 4) ∧
  (o.var_EA = 0xFF ∨ o.var_EA ≤ 7) ∧ o.var_EC ≤ 8 ∧ o.var_D6 ≤ 100 ∧ o.var_DA ≤ 100

instance (o : IndustryObject) : Decidable (ValidRules o) := by
  unfold ValidRules; infer_instance

end IndustryObject

/-! ## Collaborators and constants declared outside the sources -/

/-- The constants of the headers and of the build that `load` uses: the four `sizeof` values,
the `IndustryObjectFlags::hasShadows` mask, and whether `NDEBUG` is defined, in which case an
`assert` expands to nothing. Every `sizeof` is at least one. -/
structure Layout where
  sizeofIndustryObject : Nat
  sizeofBuildingPartAnimation : Nat
  sizeofIndustryObjectUnk38 : Nat
  sizeofObjectHeader : Nat
  hasShadows : Nat
  ndebug : Bool
  sizes_pos : 0 < sizeofIndustryObject ∧ 0 < sizeofBuildingPartAnimation ∧
    0 < sizeofIndustryObjectUnk38 ∧ 0 < sizeofObjectHeader

/-- The value returned by `ObjectManager::loadStringTable`. -/
structure StringTableResult where
  str : StringId
  tableLength : Nat
deriving DecidableEq

/-- The value returned by `ObjectManager::loadImageTable`. -/
structure ImageTableResult where
  imageOffset : Nat
  tableLength : Nat
deriving DecidableEq

/-- The three `ObjectManager` functions that `load` calls. The spans they receive are passed as
the list of the remaining bytes. -/
structure ObjectManager where
  loadStringTable : List Nat → LoadedObjectHandle → Nat → StringTableResult
  findObjectHandle : ObjectHeader → Option LoadedObjectHandle
  loadImageTable : List Nat → ImageTableResult

/-! ## Spans -/

/-- The ways in which `load` and the accessors fail: a `subspan` beyond the remaining span, a
read of a byte outside the buffer, a read through a null pointer, an index beyond an array, a
failed `assert`. -/
inductive LoadError where
  | outOfBounds
  | readPastEnd
  | nullPointer
  | indexOutOfRange
  | assertFailed
deriving DecidableEq

/-- Modelled from the spec: the span type `stdx::span` is not among the sources. The call
`remainingData.subspan(n)`, on the span that starts at offset `pos` of `data`, is the
`advance(n)` of the specification (4.1), which fails if `n` exceeds the remaining length and
on success shrinks the remaining region from the front; the result is the offset at which the
new span starts. -/
def subspan (data : List Nat) (pos n : Nat) : Except LoadError Nat :=
  if pos + n ≤ data.length then .ok (pos + n) else .error .outOfBounds

/-- The read `*remainingData.data()`. -/
def peek (data : List Nat) (pos : Nat) : Except LoadError Nat :=
  match data[pos]? with
  | some b => .ok b
  | none => .error .readPastEnd

/-- The read `*reinterpret_cast<const ObjectHeader*>(remainingData.data())`. -/
def readObjectHeader (L : Layout) (data : List Nat) (pos : Nat) : Except LoadError ObjectHeader :=
  if pos + L.sizeofObjectHeader ≤ data.length then
    .ok ⟨(data.drop pos).take L.sizeofObjectHeader⟩
  else .error .readPastEnd

/-- The loop `while (*remainingData.data() != 0xFF) remainingData = remainingData.subspan(stride)`:
the offset of the sentinel found. The fuel bounds the number of iterations. -/
def scanToSentinel (data : List Nat) (stride : Nat) : Nat → Nat → Except LoadError Nat
  | 0, _ => .error .outOfBounds
  | fuel + 1, pos =>
    match peek data pos with
    | .error e => .error e
    | .ok b =>
      if b ≠ 0xFF then
        match subspan data pos stride with
        | .error e => .error e
        | .ok next => scanToSentinel data stride fuel next
      else .ok pos

namespace IndustryObject

/-! ## `IndustryObject::load` -/

/-- The lambda `loadString` of `load`: the string id and the offset after the table. -/
def loadString (om : ObjectManager) (handle : LoadedObjectHandle) (data : List Nat) (pos num : Nat) :
    Except LoadError (StringId × Nat) :=
  let strRes := om.loadStringTable (data.drop pos) handle num
  match subspan data pos strRes.tableLength with
  | .error e => .error e
  | .ok next => .ok (strRes.str, next)

/-- The eight `loadString` calls of `load`. -/
def loadStrings (om : ObjectManager) (handle : LoadedObjectHandle) (data : List Nat)
    (o : IndustryObject) (pos : Nat) : Except LoadError (IndustryObject × Nat) := do
  let (s0, pos) ← loadString om handle data pos 0
  let (s1, pos) ← loadString om handle data pos 1
  let (_, pos) ← loadString om handle data pos 2
  let (s3, pos) ← loadString om handle data pos 3
  let (s4, pos) ← loadString om handle data pos 4
  let (s5, pos) ← loadString om handle data pos 5
  let (s6, pos) ← loadString om handle data pos 6
  let (s7, pos) ← loadString om handle data pos 7
  pure ({ o with
    name := s0, var_02 := s1, nameClosingDown := s3, nameUpProduction := s4,
    nameDownProduction := s5, nameSingular := s6, namePlural := s7 }, pos)

/-- The loop over `animationSequences`: one size byte, then that many bytes, per entry. -/
def loadAnimationSequences (data : List Nat) : List BufPtr → Nat → Except LoadError (List BufPtr × Nat)
  | [], pos => .ok ([], pos)
  | _ :: rest, pos => do
    let size ← peek data pos
    let next ← subspan data pos (size * 1 + 1)
    let (ptrs, last) ← loadAnimationSequences data rest next
    pure (some pos :: ptrs, last)

/-- The loop `for (auto i = 0; i < var_1F; ++i)` over the building part lists, entered with the
number of iterations left and the index `i`. -/
def loadBuildingPartLists (data : List Nat) :
    Nat → Nat → List BufPtr → Nat → Except LoadError (List BufPtr × Nat)
  | 0, _, parts, pos => .ok (parts, pos)
  | n + 1, i, parts, pos =>
    if i < parts.length then do
      let sentinel ← scanToSentinel data 1 (data.length + 1) pos
      let next ← subspan data sentinel 1
      loadBuildingPartLists data n (i + 1) (parts.set i (some pos)) next
    else .error .indexOutOfRange

/-- The section of `load` between the comments LOAD BUILDING PARTS Start and End, followed by
the `var_BE` bytes. -/
def loadBuildingParts (L : Layout) (data : List Nat) (o : IndustryObject) (pos : Nat) :
    Except LoadError (IndustryObject × Nat) := do
  let buildingPartHeight := some pos
  let pos ← subspan data pos (o.var_1E * 1)
  let buildingPartAnimations := some pos
  let pos ← subspan data pos (o.var_1E * L.sizeofBuildingPartAnimation)
  let (animationSequences, pos) ← loadAnimationSequences data o.animationSequences pos
  let var_38 := some pos
  let sentinel ← scanToSentinel data L.sizeofIndustryObjectUnk38 (data.length + 1) pos
  let pos ← subspan data sentinel 1
  let (buildingParts, pos) ← loadBuildingPartLists data o.var_1F 0 o.buildingParts pos
  let var_BE := some pos
  let pos ← subspan data pos (o.var_BD * 1)
  pure ({ o with
    buildingPartHeight := buildingPartHeight, buildingPartAnimations := buildingPartAnimations,
    animationSequences := animationSequences, var_38 := var_38, buildingParts := buildingParts,
    var_BE := var_BE }, pos)

/-- The cursor, the dependency sink (`none` for `nullptr`) and the calls of
`ObjectManager::findObjectHandle` made so far, in order. -/
structure SlotState where
  pos : Nat
  dependencies : Option DependentObjects
  lookups : List ObjectHeader
deriving DecidableEq

/-- The call `dependencies->required.push_back(header)` under `dependencies != nullptr`. -/
def pushRequired (dependencies : Option DependentObjects) (header : ObjectHeader) :
    Option DependentObjects :=
  match dependencies with
  | some d => some { d with required := d.required ++ [header] }
  | none => none

/-- The decoding of one object-header slot: the id stored in the slot and the state after it. -/
def loadHeaderSlot (om : ObjectManager) (L : Layout) (data : List Nat) (s : SlotState) :
    Except LoadError (Nat × SlotState) := do
  let first ← peek data s.pos
  if first ≠ 0xFF then
    let header ← readObjectHeader L data s.pos
    let dependencies := pushRequired s.dependencies header
    let id := match om.findObjectHandle header with
      | some res => toUInt8 res.id
      | none => 0xFF
    let next ← subspan data s.pos L.sizeofObjectHeader
    pure (id, { pos := next, dependencies := dependencies, lookups := s.lookups ++ [header] })
  else
    let next ← subspan data s.pos L.sizeofObjectHeader
    pure (0xFF, { s with pos := next })

/-- A range-for over an array of object-header slots. -/
def loadHeaderSlots (om : ObjectManager) (L : Layout) (data : List Nat) :
    List Nat → SlotState → Except LoadError (List Nat × SlotState)
  | [], s => .ok ([], s)
  | _ :: rest, s => do
    let (id, s1) ← loadHeaderSlot om L data s
    let (ids, s2) ← loadHeaderSlots om L data rest s1
    pure (id :: ids, s2)

/-- The section of `load` from Load Produced Cargo to Load Unk2 Wall Types. -/
def loadObjectHeaders (om : ObjectManager) (L : Layout) (data : List Nat) (o : IndustryObject)
    (s : SlotState) : Except LoadError (IndustryObject × SlotState) := do
  let (producedCargoType, s) ← loadHeaderSlots om L data o.producedCargoType s
  let (requiredCargoType, s) ← loadHeaderSlots om L data o.requiredCargoType s
  let (wallTypes, s) ← loadHeaderSlots om L data o.wallTypes s
  let (var_F1, s) ← loadHeaderSlot om L data s
  let (var_F2, s) ← loadHeaderSlot om L data s
  pure ({ o with
    producedCargoType := producedCargoType, requiredCargoType := requiredCargoType,
    wallTypes := wallTypes, var_F1 := var_F1, var_F2 := var_F2 }, s)

/-- The section Load Image Offsets of `load`. The `assert` ends `load` when its condition does
not hold, unless `NDEBUG` is defined: then it is not evaluated. -/
def loadImageOffsets (om : ObjectManager) (L : Layout) (data : List Nat) (o : IndustryObject)
    (pos : Nat) : Except LoadError IndustryObject :=
  let imgRes := om.loadImageTable (data.drop pos)
  let var_0E := imgRes.imageOffset
  if L.ndebug = true ∨ data.length - pos = imgRes.tableLength then
    let var_12 := if Nat.land o.flags L.hasShadows ≠ 0 then toUInt32 (var_0E + o.var_1F * 4)
      else var_0E
    .ok { o with
      var_0E := var_0E, var_12 := var_12, var_16 := toUInt32 (o.var_1E * 4 + var_12),
      var_1A := toUInt32 (o.var_E9 * 21) }
  else .error .assertFailed

/-- Everything `load` does before the section Load Produced Cargo: the object and the offset at
which the object-header slots start. -/
def loadUntilHeaders (om : ObjectManager) (L : Layout) (o : IndustryObject)
    (handle : LoadedObjectHandle) (data : List Nat) : Except LoadError (IndustryObject × Nat) := do
  let pos ← subspan data 0 L.sizeofIndustryObject
  let (o, pos) ← loadStrings om handle data o pos
  loadBuildingParts L data o pos

/-- Everything `load` does before the section Load Image Offsets. -/
def loadBody (om : ObjectManager) (L : Layout) (o : IndustryObject) (handle : LoadedObjectHandle)
    (data : List Nat) (dependencies : Option DependentObjects) :
    Except LoadError (IndustryObject × SlotState) := do
  let (o, pos) ← loadUntilHeaders om L o handle data
  loadObjectHeaders om L data o { pos := pos, dependencies := dependencies, lookups := [] }

/-- What `load` leaves behind: the object, the dependency sink and the calls of
`ObjectManager::findObjectHandle` it made, in order. -/
structure LoadResult where
  object : IndustryObject
  dependencies : Option DependentObjects
  lookups : List ObjectHeader
deriving DecidableEq

/-- The function `IndustryObject::load`, called on `o`. -/
def load (om : ObjectManager) (L : Layout) (o : IndustryObject) (handle : LoadedObjectHandle)
    (data : List Nat) (dependencies : Option DependentObjects) : Except LoadError LoadResult := do
  let (o, s) ← loadBody om L o handle data dependencies
  let o ← loadImageOffsets om L data o s.pos
  pure { object := o, dependencies := s.dependencies, lookups := s.lookups }

/-! ## `IndustryObject::unload` -/

/-- The function `IndustryObject::unload`. -/
def unload (o : IndustryObject) : IndustryObject :=
  { o with
    name := 0, var_02 := 0, nameClosingDown := 0, nameUpProduction := 0,
    nameDownProduction := 0, nameSingular := 0, namePlural := 0,
    var_0E := 0, var_12 := 0, var_16 := 0, var_1A := 0,
    buildingPartHeight := none, buildingPartAnimations := none,
    animationSequences := o.animationSequences.map (fun _ => none),
    var_38 := none,
    buildingParts := o.buildingParts.map (fun _ => none),
    var_BE := none,
    producedCargoType := o.producedCargoType.map (fun _ => 0),
    requiredCargoType := o.requiredCargoType.map (fun _ => 0),
    wallTypes := o.wallTypes.map (fun _ => 0),
    var_F1 := 0, var_F2 := 0 }

/-! ## The accessors -/

/-- The loop of `requiresCargo` and `producesCargo`: whether some slot differs from 0xFF. -/
def anySlotPresent : List Nat → Bool
  | [] => false
  | slot :: rest => if slot ≠ 0xFF then true else anySlotPresent rest

/-- The function `IndustryObject::requiresCargo`. -/
def requiresCargo (o : IndustryObject) : Bool :=
  anySlotPresent o.requiredCargoType

/-- The function `IndustryObject::producesCargo`. -/
def producesCargo (o : IndustryObject) : Bool :=
  anySlotPresent o.producedCargoType

/-- A `stdx::span<const std::uint8_t>` into the buffer: the offset of its first byte and its
size. -/
structure ByteView where
  start : Nat
  size : Nat
deriving DecidableEq

/-- The bytes that a view shows. -/
def ByteView.bytes (data : List Nat) (v : ByteView) : List Nat :=
  (data.drop v.start).take v.size

/-- The loop `while (*end != 0xFF) end++` on the bytes from the pointer on: the number of
increments, `none` when the loop reads beyond the last byte. -/
def findSentinel : List Nat → Option Nat
  | [] => none
  | b :: rest => if b ≠ 0xFF then (findSentinel rest).map (· + 1) else some 0

/-- The function `IndustryObject::getBuildingParts`, on the buffer that the pointers of the
object point into. -/
def getBuildingParts (data : List Nat) (o : IndustryObject) (buildingType : Nat) :
    Except LoadError ByteView :=
  match o.buildingParts[buildingType]? with
  | none => .error .indexOutOfRange
  | some none => .error .nullPointer
  | some (some partsPointer) =>
    match findSentinel (data.drop partsPointer) with
    | none => .error .readPastEnd
    | some n => .ok ⟨partsPointer, n⟩

/-! ## The sections of the stream as the specification describes them -/

/-- The animation sequences that start at the offsets `starts` lie back to back from `pos` to
`last`: each one is a size byte followed by that many bytes. -/
def SeqChain (data : List Nat) : List Nat → Nat → Nat → Prop
  | [], pos, last => pos = last
  | p :: rest, pos, last =>
    p = pos ∧
    match data[p]? with
    | some size => SeqChain data rest (p + size + 1) last
    | none => False

/-- The building part lists that start at the offsets `starts` lie back to back from `pos` to
`last`: each one runs to its first 0xFF byte, and the next one starts after that byte. -/
def PartChain (data : List Nat) : List Nat → Nat → Nat → Prop
  | [], pos, last => pos = last
  | p :: rest, pos, last =>
    p = pos ∧
    match findSentinel (data.drop p) with
    | some n => PartChain data rest (p + n + 1) last
    | none => False

/-- The view fields in the order in which `load` assigns them; of `buildingParts` the entries
below `var_1F`. -/
def viewPointers (o : IndustryObject) : List BufPtr :=
  [o.buildingPartHeight, o.buildingPartAnimations] ++ o.animationSequences ++ [o.var_38] ++
    o.buildingParts.take o.var_1F ++ [o.var_BE]

/-- The object with its resolved-id slots blanked. -/
def withoutSlotIds (o : IndustryObject) : IndustryObject :=
  { o with
    producedCargoType := [], requiredCargoType := [], wallTypes := [], var_F1 := 0, var_F2 := 0 }

/-- The result of `load` with the resolved-id slots of its object blanked. -/
def LoadResult.withoutSlotIds (r : LoadResult) : LoadResult :=
  { r with object := IndustryObject.withoutSlotIds r.object }

/-! ## The fields that neither `load` nor `unload` assigns -/

/-- The objects `o` and `o1` agree on every field that is not assigned in `load` or `unload`, and
their arrays have the same capacities. -/
def SameConfiguration (o o1 : IndustryObject) : Prop :=
  o1.var_1E = o.var_1E ∧ o1.var_1F = o.var_1F ∧ o1.var_BC = o.var_BC ∧ o1.var_BD = o.var_BD ∧
  o1.totalOfTypeInScenario = o.totalOfTypeInScenario ∧ o1.costFactor = o.costFactor ∧
  o1.clearCostFactor = o.clearCostFactor ∧ o1.var_D6 = o.var_D6 ∧ o1.var_DA = o.var_DA ∧
  o1.flags = o.flags ∧ o1.var_E8 = o.var_E8 ∧ o1.var_E9 = o.var_E9 ∧ o1.var_EA = o.var_EA ∧
  o1.var_EC = o.var_EC ∧
  o1.animationSequences.length = o.animationSequences.length ∧
  o1.buildingParts.length = o.buildingParts.length ∧
  o1.producedCargoType.length = o.producedCargoType.length ∧
  o1.requiredCargoType.length = o.requiredCargoType.length ∧
  o1.wallTypes.length = o.wallTypes.length

/-! ## The object-header slots as the specification describes them -/

/-- The resolved-id slots in stream order: produced cargo, required cargo, wall types, `var_F1`,
`var_F2`. -/
def slotIds (o : IndustryObject) : List Nat :=
  o.producedCargoType ++ o.requiredCargoType ++ o.wallTypes ++ [o.var_F1, o.var_F2]

/-- The number of object-header slots of an object. -/
def slotCount (o : IndustryObject) : Nat :=
  o.producedCargoType.length + o.requiredCargoType.length + o.wallTypes.length + 2

/-- The offsets of `n` consecutive object-header slots, the first one at `start`. -/
def slotOffsets (L : Layout) (start n : Nat) : List Nat :=
  List.range' start n L.sizeofObjectHeader

/-- The bytes of the slot at offset `pos`, as a header. -/
def headerAt (L : Layout) (data : List Nat) (pos : Nat) : ObjectHeader :=
  ⟨(data.drop pos).take L.sizeofObjectHeader⟩

/-- The header of the slot at offset `pos` when the slot is present, that is when its first
byte is not 0xFF. -/
def presentHeader (L : Layout) (data : List Nat) (pos : Nat) : Option ObjectHeader :=
  if data[pos]? = some 0xFF then none else some (headerAt L data pos)

/-- The headers of the present slots among `n` slots from `start` on, in stream order. -/
def presentHeaders (L : Layout) (data : List Nat) (start n : Nat) : List ObjectHeader :=
  (slotOffsets L start n).filterMap (presentHeader L data)

/-- The sink after the headers `hs` have been appended to its `required` list. -/
def appendRequired (dependencies : Option DependentObjects) (hs : List ObjectHeader) :
    Option DependentObjects :=
  dependencies.map (fun d => { d with required := d.required ++ hs })

/-- The id that the slot at offset `pos` resolves to: the id of the handle found for its header
when the slot is present and the lookup finds one, 0xFF otherwise. -/
def resolvedId (om : ObjectManager) (L : Layout) (data : List Nat) (pos : Nat) : Nat :=
  match presentHeader L data pos with
  | none => 0xFF
  | some header =>
    match om.findObjectHandle header with
    | some res => toUInt8 res.id
    | none => 0xFF

/-! ## The cursor over the object-header slots -/

/-- The cursor movement of one object-header slot: the offset after the slot, or the failure of
the slot. -/
def slotAdvance (L : Layout) (data : List Nat) (pos : Nat) : Except LoadError Nat := do
  let first ← peek data pos
  if first ≠ 0xFF then
    let _ ← readObjectHeader L data pos
    subspan data pos L.sizeofObjectHeader
  else
    subspan data pos L.sizeofObjectHeader

/-- The cursor movement of `n` consecutive object-header slots. -/
def slotsAdvance (L : Layout) (data : List Nat) : Nat → Nat → Except LoadError Nat
  | 0, pos => .ok pos
  | n + 1, pos => do
    let next ← slotAdvance L data pos
    slotsAdvance L data n next

/-- The object with the resolved-id slots that the object-header slots from `start` on decode
to. -/
def withDecodedSlots (om : ObjectManager) (L : Layout) (data : List Nat) (o : IndustryObject)
    (start : Nat) : IndustryObject :=
  let a := o.producedCargoType.length
  let b := o.requiredCargoType.length
  let c := o.wallTypes.length
  { o with
    producedCargoType := (slotOffsets L start a).map (resolvedId om L data),
    requiredCargoType :=
      (slotOffsets L (start + a * L.sizeofObjectHeader) b).map (resolvedId om L data),
    wallTypes :=
      (slotOffsets L (start + (a + b) * L.sizeofObjectHeader) c).map (resolvedId om L data),
    var_F1 := resolvedId om L data (start + (a + b + c) * L.sizeofObjectHeader),
    var_F2 := resolvedId om L data (start + (a + b + c + 1) * L.sizeofObjectHeader) }

/-- The validation rules other than the cost rule. -/
def OtherRules (o : IndustryObject) : Prop :=
  o.var_1E ≠ 0 ∧ (1 ≤ o.var_1F ∧ o.var_1F ≤ 31) ∧ o.var_BD ≥ o.var_BC ∧
  (1 ≤ o.totalOfTypeInScenario ∧ o.totalOfTypeInScenario ≤ 32) ∧
  o.var_E8 ≤ 8 ∧ (o.var_E9 = 1 ∨ o.var_E9 = 2 ∨ o.var_E9 = 4) ∧
  (o.var_EA = 0xFF ∨ o.var_EA ≤ 7) ∧ o.var_EC ≤ 8 ∧ o.var_D6 ≤ 100 ∧ o.var_DA ≤ 100

instance (o : IndustryObject) : Decidable (OtherRules o) := by
  unfold OtherRules; infer_instance

end IndustryObject

/-! ## Sample inputs -/

/-- A layout: an object of 244 bytes, records of 2 bytes, headers of 16 bytes, bit 21 as the
`hasShadows` mask, and `NDEBUG` not defined. -/
def sampleLayout : Layout :=
  ⟨244, 2, 2, 16, 2097152, false, by decide⟩

/-- As `sampleLayout`, with `NDEBUG` defined. -/
def releaseLayout : Layout :=
  ⟨244, 2, 2, 16, 2097152, true, by decide⟩

/-- A present slot: sixteen bytes, the first one `b`. -/
def sampleSlot (b : Nat) : List Nat :=
  b :: List.replicate 15 7

/-- An absent slot. -/
def absentSlot : List Nat :=
  0xFF :: List.replicate 15 0

/-- String and image tables carry their length in their first byte; headers that start with 1
resolve to the object with id 3, no other header resolves. -/
def sampleManager : ObjectManager where
  loadStringTable := fun rem _ num => ⟨100 + num, rem.headD 0⟩
  findObjectHandle := fun header => if header.bytes.head? = some 1 then some ⟨3⟩ else none
  loadImageTable := fun rem => ⟨1000, rem.headD 0⟩

/-- As `sampleManager`, but headers that start with 2 resolve to the object with id 255. -/
def collidingManager : ObjectManager where
  loadStringTable := fun rem _ num => ⟨100 + num, rem.headD 0⟩
  findObjectHandle := fun header =>
    if header.bytes.head? = some 1 then some ⟨3⟩
    else if header.bytes.head? = some 2 then some ⟨255⟩ else none
  loadImageTable := fun rem => ⟨1000, rem.headD 0⟩

/-- An object that passes `validate`, before `load`. -/
def sampleObject : IndustryObject where
  name := 9
  var_02 := 9
  nameClosingDown := 9
  nameUpProduction := 9
  nameDownProduction := 9
  nameSingular := 9
  namePlural := 9
  var_0E := 9
  var_12 := 9
  var_16 := 9
  var_1A := 9
  var_1E := 1
  var_1F := 1
  buildingPartHeight := none
  buildingPartAnimations := none
  animationSequences := List.replicate 4 none
  var_38 := none
  buildingParts := List.replicate 32 none
  var_BC := 0
  var_BD := 1
  var_BE := none
  totalOfTypeInScenario := 1
  costFactor := 256
  clearCostFactor := -230
  var_D6 := 0
  var_DA := 0
  producedCargoType := [0, 0]
  requiredCargoType := [0, 0, 0]
  flags := 0
  var_E8 := 0
  var_E9 := 1
  var_EA := 0xFF
  var_EC := 0
  wallTypes := [0, 0, 0, 0]
  var_F1 := 0
  var_F2 := 0

/-- The bytes of `sampleData` before the image table: the object itself, eight string tables,
one part height, one part animation, four animation sequences, one unk record and its sentinel,
one building part list, one `var_BE` byte and eleven header slots. -/
def sampleBody : List Nat :=
  List.replicate 244 0 ++ [1, 1, 1, 1, 1, 1, 1, 1] ++ [5] ++ [1, 1] ++
  [1, 9, 2, 9, 9, 0, 0] ++ [3, 4, 0xFF] ++ [0, 0xFF] ++ [7] ++
  sampleSlot 1 ++ absentSlot ++
  sampleSlot 2 ++ absentSlot ++ absentSlot ++
  sampleSlot 9 ++ absentSlot ++ absentSlot ++ absentSlot ++
  absentSlot ++ sampleSlot 1

/-- A buffer that `load` decodes for `sampleObject`: `sampleBody` and an image table of three
bytes. -/
def sampleData : List Nat :=
  sampleBody ++ [3, 0, 0]

/-- The object that `load` has made of `sampleObject` and `sampleData` when it reaches the
object-header slots, at offset 268. -/
def sampleDecoded : IndustryObject :=
  { sampleObject with
    name := 100, var_02 := 101, nameClosingDown := 103, nameUpProduction := 104,
    nameDownProduction := 105, nameSingular := 106, namePlural := 107,
    buildingPartHeight := some 252, buildingPartAnimations := some 253,
    animationSequences := [some 255, some 257, some 260, some 261],
    var_38 := some 262,
    buildingParts := some 265 :: List.replicate 31 none,
    var_BE := some 267 }

/-- The object that `load` makes of `sampleObject` and `sampleData` under `sampleManager`. -/
def sampleLoaded : IndustryObject :=
  { sampleDecoded with
    var_0E := 1000, var_12 := 1000, var_16 := 1004, var_1A := 21,
    producedCargoType := [3, 0xFF], requiredCargoType := [0xFF, 0xFF, 0xFF],
    wallTypes := [0xFF, 0xFF, 0xFF, 0xFF], var_F1 := 0xFF, var_F2 := 3 }

/-- The headers of the present slots of `sampleData`. -/
def sampleHeaders : List ObjectHeader :=
  [⟨sampleSlot 1⟩, ⟨sampleSlot 2⟩, ⟨sampleSlot 9⟩, ⟨sampleSlot 1⟩]

/-- A manager under which no header resolves. -/
def unresolvingManager : ObjectManager where
  loadStringTable := fun rem _ num => ⟨100 + num, rem.headD 0⟩
  findObjectHandle := fun _ => none
  loadImageTable := fun rem => ⟨1000, rem.headD 0⟩

/-- The object that `load` makes of `sampleObject` and `sampleData` under
`unresolvingManager`. -/
def sampleUnresolved : IndustryObject :=
  { sampleLoaded with producedCargoType := [0xFF, 0xFF], var_F2 := 0xFF }

/-- As `sampleObject`, with two parts and one part type. -/
def sampleObject2 : IndustryObject :=
  { sampleObject with var_1E := 2 }

/-- A buffer that `load` decodes for `sampleObject2`: as `sampleData`, with two part heights
and two part animations. -/
def sampleData2 : List Nat :=
  List.replicate 244 0 ++ [1, 1, 1, 1, 1, 1, 1, 1] ++ [5, 6] ++ [1, 1, 1, 1] ++
  [1, 9, 2, 9, 9, 0, 0] ++ [3, 4, 0xFF] ++ [0, 0xFF] ++ [7] ++ sampleBody.drop 268 ++ [3, 0, 0]

/-- The object that `load` makes of `sampleObject2` and `sampleData2` under `sampleManager`. -/
def sampleLoaded2 : IndustryObject :=
  { sampleLoaded with
    var_1E := 2, var_16 := 1008,
    buildingPartHeight := some 252, buildingPartAnimations := some 254,
    animationSequences := [some 258, some 260, some 263, some 264],
    var_38 := some 265,
    buildingParts := some 268 :: List.replicate 31 none,
    var_BE := some 270 }

/-- As `sampleObject`, with more part types than `buildingParts` has entries. -/
def overflowObject : IndustryObject :=
  { sampleObject with var_1F := 33 }

/-- The bytes of `sampleBody` up to the building part lists, and thirty-three empty lists. -/
def overflowData : List Nat :=
  sampleBody.take 265 ++ List.replicate 33 0xFF

theorem toInt32_of_bounds (x : Int) (h1 : -2147483648 ≤ x) (h2 : x ≤ 2147483647) :
    toInt32 x = x := by
  unfold toInt32 Int.bmod
  simp only
  split <;> omega

theorem toInt32_neg_int16 (k : Int) (hk : IsInt16 k) : toInt32 (-k) = -k := by
  unfold IsInt16 at hk
  exact toInt32_of_bounds _ (by omega) (by omega)

theorem toInt32_mul_int16 (c : Int) (hc : IsInt16 c) : toInt32 (c * 230) = c * 230 := by
  unfold IsInt16 at hc
  exact toInt32_of_bounds _ (by omega) (by omega)

namespace IndustryObject

theorem validate_eq_true_iff (o : IndustryObject) (hc : IsInt16 o.costFactor)
    (hk : IsInt16 o.clearCostFactor) : o.validate = true ↔ ValidRules o := by
  unfold validate ValidRules CostRule
  rw [toInt32_neg_int16 _ hk, toInt32_mul_int16 _ hc]
  generalize Int.tdiv (o.costFactor * 230) 256 = q
  by_cases h1 : o.var_1E = 0
  · simp [h1]
  by_cases h2 : o.var_1F = 0 ∨ o.var_1F > 31
  · rw [if_neg h1, if_pos h2]
    constructor
    · intro h; cases h
    · rintro ⟨-, h, -⟩; omega
  by_cases h3 : o.var_BD < o.var_BC
  · rw [if_neg h1, if_neg h2, if_pos h3]
    constructor
    · intro h; cases h
    · rintro ⟨-, -, h, -⟩; omega
  by_cases h4 : o.totalOfTypeInScenario = 0 ∨ o.totalOfTypeInScenario > 32
  · rw [if_neg h1, if_neg h2, if_neg h3, if_pos h4]
    constructor
    · intro h; cases h
    · rintro ⟨-, -, -, h, -⟩; omega
  by_cases h5 : -o.clearCostFactor > q
  · rw [if_neg h1, if_neg h2, if_neg h3, if_neg h4, if_pos h5]
    constructor
    · intro h; cases h
    · rintro ⟨-, -, -, -, h, -⟩; omega
  by_cases h6 : o.var_E8 > 8
  · rw [if_neg h1, if_neg h2, if_neg h3, if_neg h4, if_neg h5, if_pos h6]
    constructor
    · intro h; cases h
    · rintro ⟨-, -, -, -, -, h, -⟩; omega
  by_cases h7 : ¬ (o.var_E9 = 1 ∨ o.var_E9 = 2 ∨ o.var_E9 = 4)
  · rw [if_neg h1, if_neg h2, if_neg h3, if_neg h4, if_neg h5, if_neg h6, if_pos h7]
    constructor
    · intro h; cases h
    · rintro ⟨-, -, -, -, -, -, h, -⟩; exact absurd h h7
  by_cases h8 : o.var_EA ≠ 255 ∧ o.var_EA > 7
  · rw [if_neg h1, if_neg h2, if_neg h3, if_neg h4, if_neg h5, if_neg h6, if_neg h7, if_pos h8]
    constructor
    · intro h; cases h
    · rintro ⟨-, -, -, -, -, -, -, h, -⟩; omega
  by_cases h9 : o.var_EC > 8
  · rw [if_neg h1, if_neg h2, if_neg h3, if_neg h4, if_neg h5, if_neg h6, if_neg h7, if_neg h8,
      if_pos h9]
    constructor
    · intro h; cases h
    · rintro ⟨-, -, -, -, -, -, -, -, h, -⟩; omega
  by_cases h10 : o.var_D6 > 100
  · rw [if_neg h1, if_neg h2, if_neg h3, if_neg h4, if_neg h5, if_neg h6, if_neg h7, if_neg h8,
      if_neg h9, if_pos h10]
    constructor
    · intro h; cases h
    · rintro ⟨-, -, -, -, -, -, -, -, -, h, -⟩; omega
  rw [if_neg h1, if_neg h2, if_neg h3, if_neg h4, if_neg h5, if_neg h6, if_neg h7, if_neg h8,
    if_neg h9, if_neg h10, decide_eq_true_eq]
  constructor
  · intro h
    exact ⟨h1, by omega, by omega, by omega, by omega, by omega, not_not.mp h7, by omega,
      by omega, by omega, h⟩
  · intro h
    exact h.2.2.2.2.2.2.2.2.2.2

end IndustryObject

end OpenLoco

namespace OpenLoco
namespace IndustryObject

/-! ## Lemmas on the decoder -/

theorem bind_eq_ok {ε α β : Type} {x : Except ε α} {f : α → Except ε β} {b : β}
    (h : (x >>= f) = .ok b) : ∃ a, x = .ok a ∧ f a = .ok b := by
  cases x with
  | error e => cases h
  | ok a => exact ⟨a, rfl, h⟩

theorem subspan_eq_ok {data : List Nat} {pos n p : Nat} (h : subspan data pos n = .ok p) :
    p = pos + n ∧ pos + n ≤ data.length := by
  unfold subspan at h
  split at h
  · injection h with h
    exact ⟨h.symm, by assumption⟩
  · cases h

theorem peek_eq_ok {data : List Nat} {pos b : Nat} (h : peek data pos = .ok b) :
    data[pos]? = some b := by
  unfold peek at h
  split at h
  · injection h with h
    subst h
    assumption
  · cases h

theorem readObjectHeader_eq_ok {L : Layout} {data : List Nat} {pos : Nat} {header : ObjectHeader}
    (h : readObjectHeader L data pos = .ok header) : header = headerAt L data pos := by
  unfold readObjectHeader at h
  split at h
  · injection h with h
    exact h.symm
  · cases h

theorem appendRequired_nil (dependencies : Option DependentObjects) :
    appendRequired dependencies [] = dependencies := by
  cases dependencies <;> simp [appendRequired]

theorem appendRequired_append (dependencies : Option DependentObjects) (xs ys : List ObjectHeader) :
    appendRequired (appendRequired dependencies xs) ys = appendRequired dependencies (xs ++ ys) := by
  cases dependencies <;> simp [appendRequired]

theorem pushRequired_eq (dependencies : Option DependentObjects) (header : ObjectHeader) :
    pushRequired dependencies header = appendRequired dependencies [header] := by
  cases dependencies <;> rfl

theorem loadHeaderSlot_eq_ok {om : ObjectManager} {L : Layout} {data : List Nat} {s s1 : SlotState}
    {id : Nat} (h : loadHeaderSlot om L data s = .ok (id, s1)) :
    s1.pos = s.pos + L.sizeofObjectHeader ∧ s1.pos ≤ data.length ∧
    (∃ b, data[s.pos]? = some b) ∧
    id = resolvedId om L data s.pos ∧
    s1.lookups = s.lookups ++ (presentHeader L data s.pos).toList ∧
    s1.dependencies = appendRequired s.dependencies (presentHeader L data s.pos).toList := by
  unfold loadHeaderSlot at h
  obtain ⟨first, hfirst, h⟩ := bind_eq_ok h
  have hb := peek_eq_ok hfirst
  by_cases hff : first = 0xFF
  · rw [if_neg (not_not.mpr hff)] at h
    obtain ⟨next, hnext, h⟩ := bind_eq_ok h
    obtain ⟨hn1, hn2⟩ := subspan_eq_ok hnext
    injection h with h
    injection h with h1 h2
    subst h1 h2 hff
    have hp : presentHeader L data s.pos = none := by
      unfold presentHeader; rw [if_pos hb]
    refine ⟨hn1, by simpa [hn1] using hn2, ⟨_, hb⟩, ?_, ?_, ?_⟩
    · unfold resolvedId; rw [hp]
    · rw [hp]; simp
    · rw [hp]; simp [appendRequired_nil]
  · rw [if_pos hff] at h
    obtain ⟨header, hheader, h⟩ := bind_eq_ok h
    have hh := readObjectHeader_eq_ok hheader
    obtain ⟨next, hnext, h⟩ := bind_eq_ok h
    obtain ⟨hn1, hn2⟩ := subspan_eq_ok hnext
    injection h with h
    injection h with h1 h2
    subst h1 h2 hh
    have hp : presentHeader L data s.pos = some (headerAt L data s.pos) := by
      unfold presentHeader
      rw [if_neg]
      rw [hb]
      intro hc
      injection hc with hc
      exact hff hc
    refine ⟨hn1, by simpa [hn1] using hn2, ⟨_, hb⟩, ?_, ?_, ?_⟩
    · unfold resolvedId; rw [hp]
    · rw [hp]; rfl
    · rw [hp, pushRequired_eq]; rfl

theorem slotOffsets_succ (L : Layout) (start n : Nat) :
    slotOffsets L start (n + 1) = start :: slotOffsets L (start + L.sizeofObjectHeader) n := by
  rfl

theorem slotOffsets_add (L : Layout) (start m n : Nat) :
    slotOffsets L start (m + n) =
      slotOffsets L start m ++ slotOffsets L (start + m * L.sizeofObjectHeader) n := by
  unfold slotOffsets
  rw [Nat.mul_comm m, List.range'_append, Nat.add_comm m n]

theorem presentHeaders_add (L : Layout) (data : List Nat) (start m n : Nat) :
    presentHeaders L data start (m + n) =
      presentHeaders L data start m ++
        presentHeaders L data (start + m * L.sizeofObjectHeader) n := by
  unfold presentHeaders
  rw [slotOffsets_add, List.filterMap_append]

theorem presentHeaders_one (L : Layout) (data : List Nat) (start : Nat) :
    presentHeaders L data start 1 = (presentHeader L data start).toList := by
  unfold presentHeaders
  rw [slotOffsets_succ]
  cases h : presentHeader L data start <;> simp [slotOffsets, h]

theorem loadHeaderSlots_eq_ok {om : ObjectManager} {L : Layout} {data : List Nat} :
    ∀ (slots : List Nat) (s s1 : SlotState) (ids : List Nat),
      loadHeaderSlots om L data slots s = .ok (ids, s1) →
      s1.pos = s.pos + slots.length * L.sizeofObjectHeader ∧
      ids = (slotOffsets L s.pos slots.length).map (resolvedId om L data) ∧
      s1.lookups = s.lookups ++ presentHeaders L data s.pos slots.length ∧
      s1.dependencies =
        appendRequired s.dependencies (presentHeaders L data s.pos slots.length) := by
  intro slots
  induction slots with
  | nil =>
    intro s s1 ids h
    unfold loadHeaderSlots at h
    injection h with h
    injection h with h1 h2
    subst h1 h2
    simp [slotOffsets, presentHeaders, appendRequired_nil]
  | cons x rest ih =>
    intro s s1 ids h
    unfold loadHeaderSlots at h
    obtain ⟨⟨id, sa⟩, hslot, h⟩ := bind_eq_ok h
    obtain ⟨⟨ids1, sb⟩, hrest, h⟩ := bind_eq_ok h
    injection h with h
    injection h with h1 h2
    subst h1 h2
    obtain ⟨hp, -, -, hid, hl, hd⟩ := loadHeaderSlot_eq_ok hslot
    obtain ⟨hp1, hids1, hl1, hd1⟩ := ih sa sb ids1 hrest
    have hsplit : presentHeaders L data s.pos (rest.length + 1) =
        (presentHeader L data s.pos).toList ++
          presentHeaders L data (s.pos + L.sizeofObjectHeader) rest.length := by
      rw [Nat.add_comm rest.length 1, presentHeaders_add, presentHeaders_one, Nat.one_mul]
    refine ⟨?_, ?_, ?_, ?_⟩
    · rw [hp1, hp, List.length_cons, Nat.succ_mul]; omega
    · rw [List.length_cons, slotOffsets_succ, List.map_cons, hids1, hid, hp]
    · rw [hl1, hl, hp, List.length_cons, hsplit, List.append_assoc]
    · rw [hd1, hd, hp, List.length_cons, hsplit, appendRequired_append]


theorem loadObjectHeaders_eq_ok {om : ObjectManager} {L : Layout} {data : List Nat}
    {o o1 : IndustryObject} {s s1 : SlotState}
    (h : loadObjectHeaders om L data o s = .ok (o1, s1)) :
    s1.pos = s.pos + slotCount o * L.sizeofObjectHeader ∧ s1.pos ≤ data.length ∧
    slotIds o1 = (slotOffsets L s.pos (slotCount o)).map (resolvedId om L data) ∧
    s1.lookups = s.lookups ++ presentHeaders L data s.pos (slotCount o) ∧
    s1.dependencies = appendRequired s.dependencies (presentHeaders L data s.pos (slotCount o)) ∧
    o1 = { o with
      producedCargoType := o1.producedCargoType, requiredCargoType := o1.requiredCargoType,
      wallTypes := o1.wallTypes, var_F1 := o1.var_F1, var_F2 := o1.var_F2 } ∧
    o1.producedCargoType.length = o.producedCargoType.length ∧
    o1.requiredCargoType.length = o.requiredCargoType.length ∧
    o1.wallTypes.length = o.wallTypes.length := by
  unfold loadObjectHeaders at h
  obtain ⟨⟨produced, sa⟩, ha, h⟩ := bind_eq_ok h
  obtain ⟨⟨required, sb⟩, hb, h⟩ := bind_eq_ok h
  obtain ⟨⟨walls, sc⟩, hc, h⟩ := bind_eq_ok h
  obtain ⟨⟨f1, sd⟩, hd, h⟩ := bind_eq_ok h
  obtain ⟨⟨f2, se⟩, he, h⟩ := bind_eq_ok h
  injection h with h
  injection h with h1 h2
  subst h1 h2
  obtain ⟨pa, ia, la, da⟩ := loadHeaderSlots_eq_ok _ _ _ _ ha
  obtain ⟨pb, ib, lb, db⟩ := loadHeaderSlots_eq_ok _ _ _ _ hb
  obtain ⟨pc, ic, lc, dc⟩ := loadHeaderSlots_eq_ok _ _ _ _ hc
  obtain ⟨pd, bd, -, id1, ld, dd⟩ := loadHeaderSlot_eq_ok hd
  obtain ⟨pe, be, -, ie, le, de⟩ := loadHeaderSlot_eq_ok he
  have hoff : slotOffsets L s.pos (slotCount o) =
      slotOffsets L s.pos o.producedCargoType.length ++
        slotOffsets L sa.pos o.requiredCargoType.length ++
        slotOffsets L sb.pos o.wallTypes.length ++ [sc.pos, sd.pos] := by
    unfold slotCount
    have e0 : s.pos + o.producedCargoType.length * L.sizeofObjectHeader = sa.pos := pa.symm
    have e1 : s.pos + (o.producedCargoType.length + o.requiredCargoType.length) *
        L.sizeofObjectHeader = sb.pos := by rw [Nat.add_mul]; omega
    have e2 : s.pos + (o.producedCargoType.length + o.requiredCargoType.length +
        o.wallTypes.length) * L.sizeofObjectHeader = sc.pos := by
      rw [Nat.add_mul, Nat.add_mul]; omega
    have e3 : slotOffsets L sc.pos 2 = [sc.pos, sd.pos] := by
      rw [pd]; rfl
    rw [slotOffsets_add, slotOffsets_add, slotOffsets_add, e0, e1, e2, e3]
  have hpres : presentHeaders L data s.pos (slotCount o) =
      presentHeaders L data s.pos o.producedCargoType.length ++
        presentHeaders L data sa.pos o.requiredCargoType.length ++
        presentHeaders L data sb.pos o.wallTypes.length ++
        ((presentHeader L data sc.pos).toList ++ (presentHeader L data sd.pos).toList) := by
    unfold presentHeaders
    rw [hoff]
    simp only [List.filterMap_append]
    congr 1
    cases h1 : presentHeader L data sc.pos <;> cases h2 : presentHeader L data sd.pos <;>
      simp [h1, h2]
  refine ⟨?_, ?_, ?_, ?_, ?_, rfl, ?_, ?_, ?_⟩
  · rw [pe, pd, pc, pb, pa]
    unfold slotCount
    simp only [Nat.add_mul]
    omega
  · exact be
  · rw [hoff]
    simp only [slotIds, List.map_append, List.map_cons, List.map_nil]
    rw [← ia, ← ib, ← ic, ← id1, ← ie]
  · rw [le, ld, lc, lb, la, hpres]
    simp only [List.append_assoc]
  · rw [de, dd, dc, db, da, hpres]
    simp only [appendRequired_append, List.append_assoc]
  · rw [ia]; simp [slotOffsets]
  · rw [ib]; simp [slotOffsets]
  · rw [ic]; simp [slotOffsets]


theorem SameConfiguration.refl (o : IndustryObject) : SameConfiguration o o := by
  unfold SameConfiguration
  simp

theorem SameConfiguration.trans {a b c : IndustryObject} (h1 : SameConfiguration a b)
    (h2 : SameConfiguration b c) : SameConfiguration a c := by
  unfold SameConfiguration at *
  obtain ⟨a1, a2, a3, a4, a5, a6, a7, a8, a9, a10, a11, a12, a13, a14, a15, a16, a17, a18, a19⟩ := h1
  obtain ⟨b1, b2, b3, b4, b5, b6, b7, b8, b9, b10, b11, b12, b13, b14, b15, b16, b17, b18, b19⟩ := h2
  exact ⟨b1.trans a1, b2.trans a2, b3.trans a3, b4.trans a4, b5.trans a5, b6.trans a6,
    b7.trans a7, b8.trans a8, b9.trans a9, b10.trans a10, b11.trans a11, b12.trans a12,
    b13.trans a13, b14.trans a14, b15.trans a15, b16.trans a16, b17.trans a17, b18.trans a18,
    b19.trans a19⟩

theorem loadString_eq_ok {om : ObjectManager} {handle : LoadedObjectHandle} {data : List Nat}
    {pos num : Nat} {r : StringId × Nat} (h : loadString om handle data pos num = .ok r) :
    r.1 = (om.loadStringTable (data.drop pos) handle num).str ∧
    r.2 = pos + (om.loadStringTable (data.drop pos) handle num).tableLength := by
  unfold loadString at h
  simp only at h
  split at h
  · cases h
  · rename_i next hnext
    injection h with h
    subst h
    exact ⟨rfl, (subspan_eq_ok hnext).1⟩

theorem loadStrings_frame {om : ObjectManager} {handle : LoadedObjectHandle} {data : List Nat}
    {o o1 : IndustryObject} {pos p : Nat} (h : loadStrings om handle data o pos = .ok (o1, p)) :
    SameConfiguration o o1 := by
  unfold loadStrings at h
  obtain ⟨⟨s0, p0⟩, -, h⟩ := bind_eq_ok h
  obtain ⟨⟨s1, p1⟩, -, h⟩ := bind_eq_ok h
  obtain ⟨⟨s2, p2⟩, -, h⟩ := bind_eq_ok h
  obtain ⟨⟨s3, p3⟩, -, h⟩ := bind_eq_ok h
  obtain ⟨⟨s4, p4⟩, -, h⟩ := bind_eq_ok h
  obtain ⟨⟨s5, p5⟩, -, h⟩ := bind_eq_ok h
  obtain ⟨⟨s6, p6⟩, -, h⟩ := bind_eq_ok h
  obtain ⟨⟨s7, p7⟩, -, h⟩ := bind_eq_ok h
  injection h with h
  injection h with h1 h2
  subst h1
  unfold SameConfiguration
  simp

theorem loadAnimationSequences_length {data : List Nat} :
    ∀ (entries : List BufPtr) (pos : Nat) (ptrs : List BufPtr) (last : Nat),
      loadAnimationSequences data entries pos = .ok (ptrs, last) →
      ptrs.length = entries.length := by
  intro entries
  induction entries with
  | nil =>
    intro pos ptrs last h
    unfold loadAnimationSequences at h
    injection h with h
    injection h with h1 h2
    subst h1
    rfl
  | cons x rest ih =>
    intro pos ptrs last h
    unfold loadAnimationSequences at h
    obtain ⟨size, -, h⟩ := bind_eq_ok h
    obtain ⟨next, -, h⟩ := bind_eq_ok h
    obtain ⟨⟨ptrs1, last1⟩, hrest, h⟩ := bind_eq_ok h
    injection h with h
    injection h with h1 h2
    subst h1
    rw [List.length_cons, List.length_cons, ih _ _ _ hrest]

theorem loadBuildingPartLists_length {data : List Nat} :
    ∀ (n i : Nat) (parts : List BufPtr) (pos : Nat) (parts1 : List BufPtr) (last : Nat),
      loadBuildingPartLists data n i parts pos = .ok (parts1, last) →
      parts1.length = parts.length := by
  intro n
  induction n with
  | zero =>
    intro i parts pos parts1 last h
    unfold loadBuildingPartLists at h
    injection h with h
    injection h with h1 h2
    subst h1
    rfl
  | succ n ih =>
    intro i parts pos parts1 last h
    unfold loadBuildingPartLists at h
    split at h
    · obtain ⟨sentinel, -, h⟩ := bind_eq_ok h
      obtain ⟨next, -, h⟩ := bind_eq_ok h
      rw [ih _ _ _ _ _ h, List.length_set]
    · cases h

theorem loadBuildingParts_frame {L : Layout} {data : List Nat} {o o1 : IndustryObject}
    {pos p : Nat} (h : loadBuildingParts L data o pos = .ok (o1, p)) :
    SameConfiguration o o1 := by
  unfold loadBuildingParts at h
  obtain ⟨p1, -, h⟩ := bind_eq_ok h
  obtain ⟨p2, -, h⟩ := bind_eq_ok h
  obtain ⟨⟨seqs, p3⟩, hseqs, h⟩ := bind_eq_ok h
  obtain ⟨sentinel, -, h⟩ := bind_eq_ok h
  obtain ⟨p4, -, h⟩ := bind_eq_ok h
  obtain ⟨⟨parts, p5⟩, hparts, h⟩ := bind_eq_ok h
  obtain ⟨p6, -, h⟩ := bind_eq_ok h
  injection h with h
  injection h with h1 h2
  subst h1
  unfold SameConfiguration
  simp [loadAnimationSequences_length _ _ _ _ hseqs, loadBuildingPartLists_length _ _ _ _ _ _ hparts]

theorem loadUntilHeaders_frame {om : ObjectManager} {L : Layout} {o o1 : IndustryObject}
    {handle : LoadedObjectHandle} {data : List Nat} {start : Nat}
    (h : loadUntilHeaders om L o handle data = .ok (o1, start)) : SameConfiguration o o1 := by
  unfold loadUntilHeaders at h
  obtain ⟨p0, -, h⟩ := bind_eq_ok h
  obtain ⟨⟨oa, pa⟩, ha, h⟩ := bind_eq_ok h
  exact (loadStrings_frame ha).trans (loadBuildingParts_frame h)

theorem loadObjectHeaders_frame {om : ObjectManager} {L : Layout} {data : List Nat}
    {o o1 : IndustryObject} {s s1 : SlotState}
    (h : loadObjectHeaders om L data o s = .ok (o1, s1)) : SameConfiguration o o1 := by
  obtain ⟨-, -, -, -, -, ho, l1, l2, l3⟩ := loadObjectHeaders_eq_ok h
  unfold SameConfiguration
  rw [ho]
  simp [l1, l2, l3]

theorem loadImageOffsets_eq_ok {om : ObjectManager} {L : Layout} {data : List Nat}
    {o o1 : IndustryObject} {pos : Nat} (h : loadImageOffsets om L data o pos = .ok o1) :
    (L.ndebug = false →
      data.length - pos = (om.loadImageTable (data.drop pos)).tableLength) ∧
    SameConfiguration o o1 := by
  unfold loadImageOffsets at h
  simp only at h
  split at h
  · rename_i hlen
    injection h with h
    subst h
    refine ⟨?_, ?_⟩
    · intro hn
      rcases hlen with h1 | h1
      · rw [hn] at h1
        cases h1
      · exact h1
    · unfold SameConfiguration
      simp
  · cases h

theorem loadBody_eq_ok {om : ObjectManager} {L : Layout} {o o2 : IndustryObject}
    {handle : LoadedObjectHandle} {data : List Nat} {dependencies : Option DependentObjects}
    {s : SlotState} (h : loadBody om L o handle data dependencies = .ok (o2, s)) :
    ∃ o1 start, loadUntilHeaders om L o handle data = .ok (o1, start) ∧
      loadObjectHeaders om L data o1
        { pos := start, dependencies := dependencies, lookups := [] } = .ok (o2, s) := by
  unfold loadBody at h
  obtain ⟨⟨o1, start⟩, h1, h⟩ := bind_eq_ok h
  exact ⟨o1, start, h1, h⟩

theorem load_eq_ok {om : ObjectManager} {L : Layout} {o : IndustryObject}
    {handle : LoadedObjectHandle} {data : List Nat} {dependencies : Option DependentObjects}
    {r : LoadResult} (h : load om L o handle data dependencies = .ok r) :
    ∃ o2 s, loadBody om L o handle data dependencies = .ok (o2, s) ∧
      loadImageOffsets om L data o2 s.pos = .ok r.object ∧
      r.dependencies = s.dependencies ∧ r.lookups = s.lookups := by
  unfold load at h
  obtain ⟨⟨o2, s⟩, h1, h⟩ := bind_eq_ok h
  obtain ⟨o3, h2, h⟩ := bind_eq_ok h
  injection h with h
  subst h
  exact ⟨o2, s, h1, h2, rfl, rfl⟩

theorem slotCount_eq_of_sameConfiguration {o o1 : IndustryObject} (h : SameConfiguration o o1) :
    slotCount o1 = slotCount o := by
  unfold SameConfiguration at h
  unfold slotCount
  omega

/-- What a successful `load` establishes about the object-header slots. -/
theorem load_headers {om : ObjectManager} {L : Layout} {o : IndustryObject}
    {handle : LoadedObjectHandle} {data : List Nat} {dependencies : Option DependentObjects}
    {r : LoadResult} (h : load om L o handle data dependencies = .ok r) :
    ∃ o1 start, loadUntilHeaders om L o handle data = .ok (o1, start) ∧
      start + slotCount o * L.sizeofObjectHeader ≤ data.length ∧
      slotIds r.object = (slotOffsets L start (slotCount o)).map (resolvedId om L data) ∧
      r.lookups = presentHeaders L data start (slotCount o) ∧
      r.dependencies = appendRequired dependencies (presentHeaders L data start (slotCount o)) := by
  obtain ⟨o2, s, hbody, himg, hd, hl⟩ := load_eq_ok h
  obtain ⟨o1, start, h1, h2⟩ := loadBody_eq_ok hbody
  obtain ⟨hp, hb, hids, hlk, hdep, -⟩ := loadObjectHeaders_eq_ok h2
  have hc := slotCount_eq_of_sameConfiguration (loadUntilHeaders_frame h1)
  rw [hc] at hp hids hlk hdep
  refine ⟨o1, start, h1, ?_, ?_, ?_, ?_⟩
  · rw [← hp]; exact hb
  · rw [← hids]
    unfold loadImageOffsets at himg
    simp only at himg
    split at himg
    · injection himg with himg
      rw [← himg]
      rfl
    · cases himg
  · rw [hl, hlk]; rfl
  · rw [hd, hdep]

theorem load_frame {om : ObjectManager} {L : Layout} {o : IndustryObject}
    {handle : LoadedObjectHandle} {data : List Nat} {dependencies : Option DependentObjects}
    {r : LoadResult} (h : load om L o handle data dependencies = .ok r) :
    SameConfiguration o r.object := by
  obtain ⟨o2, s, hbody, himg, -, -⟩ := load_eq_ok h
  obtain ⟨o1, start, h1, h2⟩ := loadBody_eq_ok hbody
  exact ((loadUntilHeaders_frame h1).trans (loadObjectHeaders_frame h2)).trans
    (loadImageOffsets_eq_ok himg).2

theorem map_const_eq_of_length {α β : Type} (c : β) (xs ys : List α)
    (h : xs.length = ys.length) : xs.map (fun _ => c) = ys.map (fun _ => c) := by
  rw [List.map_const', List.map_const', h]

theorem unload_eq_of_sameConfiguration {o o1 : IndustryObject} (h : SameConfiguration o o1) :
    unload o1 = unload o := by
  unfold SameConfiguration at h
  obtain ⟨a1, a2, a3, a4, a5, a6, a7, a8, a9, a10, a11, a12, a13, a14, a15, a16, a17, a18, a19⟩ := h
  unfold unload
  rw [a1, a2, a3, a4, a5, a6, a7, a8, a9, a10, a11, a12, a13, a14,
    map_const_eq_of_length none _ _ a15, map_const_eq_of_length none _ _ a16,
    map_const_eq_of_length 0 _ _ a17, map_const_eq_of_length 0 _ _ a18,
    map_const_eq_of_length 0 _ _ a19]

end IndustryObject
end OpenLoco

namespace OpenLoco
namespace IndustryObject

/-! ## The validator -/

theorem validate_eq_false_of_not_rules (o : IndustryObject) (hc : IsInt16 o.costFactor)
    (hk : IsInt16 o.clearCostFactor) (h : ¬ ValidRules o) : o.validate = false := by
  cases hv : o.validate with
  | false => rfl
  | true => exact absurd ((validate_eq_true_iff o hc hk).mp hv) h

/-- C1: on every object whose cost factors are `int16_t` values, `validate` returns true exactly
when all the rules hold together: `var_1E` is not 0, `var_1F` is in 1..31, `var_BD >= var_BC`,
`totalOfTypeInScenario` is in 1..32, `-clearCostFactor <= costFactor * 230 / 256` with truncating
division, `var_E8 <= 8`, `var_E9` is 1, 2 or 4, `var_EA` is 0xFF or at most 7, `var_EC <= 8`,
`var_D6 <= 100` and `var_DA <= 100`. A configuration with `var_1F = 31`,
`totalOfTypeInScenario = 32` and both percentage fields 100, the others valid, passes. -/
theorem validate_iff_rules (o : IndustryObject) (hc : IsInt16 o.costFactor)
    (hk : IsInt16 o.clearCostFactor) :
    (o.validate = true ↔
      o.var_1E ≠ 0 ∧ (1 ≤ o.var_1F ∧ o.var_1F ≤ 31) ∧ o.var_BD ≥ o.var_BC ∧
      (1 ≤ o.totalOfTypeInScenario ∧ o.totalOfTypeInScenario ≤ 32) ∧
      -o.clearCostFactor ≤ Int.tdiv (o.costFactor * 230) 256 ∧
      o.var_E8 ≤ 8 ∧ (o.var_E9 = 1 ∨ o.var_E9 = 2 ∨ o.var_E9 = 4) ∧
      (o.var_EA = 0xFF ∨ o.var_EA ≤ 7) ∧ o.var_EC ≤ 8 ∧ o.var_D6 ≤ 100 ∧ o.var_DA ≤ 100) ∧
    (o.validate = true →
      validate { o with
        var_1F := 31, totalOfTypeInScenario := 32, var_D6 := 100, var_DA := 100 } = true) := by
  refine ⟨validate_eq_true_iff o hc hk, fun hv => ?_⟩
  have h := (validate_eq_true_iff o hc hk).mp hv
  refine (validate_eq_true_iff { o with
    var_1F := 31, totalOfTypeInScenario := 32, var_D6 := 100, var_DA := 100 } hc hk).mpr ?_
  unfold ValidRules at h ⊢
  obtain ⟨h1, -, h3, -, h5, h6, h7, h8, h9, -, -⟩ := h
  exact ⟨h1, ⟨show 1 ≤ 31 by decide, show 31 ≤ 31 by decide⟩, h3,
    ⟨show 1 ≤ 32 by decide, show 32 ≤ 32 by decide⟩, h5, h6, h7, h8, h9,
    show 100 ≤ 100 by decide, show 100 ≤ 100 by decide⟩

theorem validate_iff_rules_witness :
    (sampleObject.validate = true ↔
      sampleObject.var_1E ≠ 0 ∧ (1 ≤ sampleObject.var_1F ∧ sampleObject.var_1F ≤ 31) ∧
      sampleObject.var_BD ≥ sampleObject.var_BC ∧
      (1 ≤ sampleObject.totalOfTypeInScenario ∧ sampleObject.totalOfTypeInScenario ≤ 32) ∧
      -sampleObject.clearCostFactor ≤ Int.tdiv (sampleObject.costFactor * 230) 256 ∧
      sampleObject.var_E8 ≤ 8 ∧
      (sampleObject.var_E9 = 1 ∨ sampleObject.var_E9 = 2 ∨ sampleObject.var_E9 = 4) ∧
      (sampleObject.var_EA = 0xFF ∨ sampleObject.var_EA ≤ 7) ∧ sampleObject.var_EC ≤ 8 ∧
      sampleObject.var_D6 ≤ 100 ∧ sampleObject.var_DA ≤ 100) ∧
    (sampleObject.validate = true →
      validate { sampleObject with
        var_1F := 31, totalOfTypeInScenario := 32, var_D6 := 100, var_DA := 100 } = true) :=
  validate_iff_rules sampleObject (by decide) (by decide)

/-- C2: with every other check satisfied and both cost factors `int16_t` values, `validate`
passes exactly when `-clearCostFactor <= (costFactor * 230) / 256` in exact integers with
division truncating toward zero; with `costFactor = 256` it passes for `clearCostFactor = -230`
and fails for `clearCostFactor = -231`. -/
theorem validate_cost_exact (o : IndustryObject) (c k : Int) (hc : IsInt16 c) (hk : IsInt16 k)
    (ho : OtherRules o) :
    (validate { o with costFactor := c, clearCostFactor := k } = true ↔
      -k ≤ Int.tdiv (c * 230) 256) ∧
    validate { o with costFactor := 256, clearCostFactor := -230 } = true ∧
    validate { o with costFactor := 256, clearCostFactor := -231 } = false := by
  have key : ∀ c1 k1 : Int, IsInt16 c1 → IsInt16 k1 →
      (validate { o with costFactor := c1, clearCostFactor := k1 } = true ↔
        -k1 ≤ Int.tdiv (c1 * 230) 256) := by
    intro c1 k1 h1 h2
    rw [validate_eq_true_iff _ h1 h2]
    unfold OtherRules at ho
    unfold ValidRules CostRule
    obtain ⟨a1, a2, a3, a4, a5, a6, a7, a8, a9, a10⟩ := ho
    constructor
    · intro h
      exact h.2.2.2.2.1
    · intro h
      exact ⟨a1, a2, a3, a4, h, a5, a6, a7, a8, a9, a10⟩
  refine ⟨key c k hc hk, (key 256 (-230) (by decide) (by decide)).mpr (by decide), ?_⟩
  cases hv : validate { o with costFactor := 256, clearCostFactor := -231 } with
  | false => rfl
  | true =>
    have h := (key 256 (-231) (by decide) (by decide)).mp hv
    exact absurd h (by decide)

theorem validate_cost_exact_witness :
    (validate { sampleObject with costFactor := -3, clearCostFactor := 2 } = true ↔
      -(2 : Int) ≤ Int.tdiv (-3 * 230) 256) ∧
    validate { sampleObject with costFactor := 256, clearCostFactor := -230 } = true ∧
    validate { sampleObject with costFactor := 256, clearCostFactor := -231 } = false :=
  validate_cost_exact sampleObject (-3) 2 (by decide) (by decide) (by decide)

/-- C3: on an object that passes `validate`, changing one validated field to a value outside its
range, the other fields being kept, makes `validate` return false. The ranges of the pairs
`var_BC`, `var_BD` and `costFactor`, `clearCostFactor` are taken against the kept field. -/
theorem validate_monotone (o : IndustryObject) (hc : IsInt16 o.costFactor)
    (hk : IsInt16 o.clearCostFactor) (_hv : o.validate = true) :
    (∀ v, ¬ v ≠ 0 → validate { o with var_1E := v } = false) ∧
    (∀ v, ¬ (1 ≤ v ∧ v ≤ 31) → validate { o with var_1F := v } = false) ∧
    (∀ v, ¬ o.var_BD ≥ v → validate { o with var_BC := v } = false) ∧
    (∀ v, ¬ v ≥ o.var_BC → validate { o with var_BD := v } = false) ∧
    (∀ v, ¬ (1 ≤ v ∧ v ≤ 32) → validate { o with totalOfTypeInScenario := v } = false) ∧
    (∀ v, IsInt16 v → ¬ -o.clearCostFactor ≤ Int.tdiv (v * 230) 256 →
      validate { o with costFactor := v } = false) ∧
    (∀ v, IsInt16 v → ¬ -v ≤ Int.tdiv (o.costFactor * 230) 256 →
      validate { o with clearCostFactor := v } = false) ∧
    (∀ v, ¬ v ≤ 8 → validate { o with var_E8 := v } = false) ∧
    (∀ v, ¬ (v = 1 ∨ v = 2 ∨ v = 4) → validate { o with var_E9 := v } = false) ∧
    (∀ v, ¬ (v = 0xFF ∨ v ≤ 7) → validate { o with var_EA := v } = false) ∧
    (∀ v, ¬ v ≤ 8 → validate { o with var_EC := v } = false) ∧
    (∀ v, ¬ v ≤ 100 → validate { o with var_D6 := v } = false) ∧
    (∀ v, ¬ v ≤ 100 → validate { o with var_DA := v } = false) := by
  refine ⟨?_, ?_, ?_, ?_, ?_, ?_, ?_, ?_, ?_, ?_, ?_, ?_, ?_⟩
  · intro v hv
    exact validate_eq_false_of_not_rules _ hc hk (fun h => hv h.1)
  · intro v hv
    exact validate_eq_false_of_not_rules _ hc hk (fun h => hv h.2.1)
  · intro v hv
    exact validate_eq_false_of_not_rules _ hc hk (fun h => hv h.2.2.1)
  · intro v hv
    exact validate_eq_false_of_not_rules _ hc hk (fun h => hv h.2.2.1)
  · intro v hv
    exact validate_eq_false_of_not_rules _ hc hk (fun h => hv h.2.2.2.1)
  · intro v hi hv
    exact validate_eq_false_of_not_rules _ hi hk (fun h => hv h.2.2.2.2.1)
  · intro v hi hv
    exact validate_eq_false_of_not_rules _ hc hi (fun h => hv h.2.2.2.2.1)
  · intro v hv
    exact validate_eq_false_of_not_rules _ hc hk (fun h => hv h.2.2.2.2.2.1)
  · intro v hv
    exact validate_eq_false_of_not_rules _ hc hk (fun h => hv h.2.2.2.2.2.2.1)
  · intro v hv
    exact validate_eq_false_of_not_rules _ hc hk (fun h => hv h.2.2.2.2.2.2.2.1)
  · intro v hv
    exact validate_eq_false_of_not_rules _ hc hk (fun h => hv h.2.2.2.2.2.2.2.2.1)
  · intro v hv
    exact validate_eq_false_of_not_rules _ hc hk (fun h => hv h.2.2.2.2.2.2.2.2.2.1)
  · intro v hv
    exact validate_eq_false_of_not_rules _ hc hk (fun h => hv h.2.2.2.2.2.2.2.2.2.2)

theorem validate_monotone_witness :
    sampleObject.validate = true ∧
    validate { sampleObject with var_1E := 0 } = false ∧
    validate { sampleObject with var_1F := 32 } = false ∧
    validate { sampleObject with var_BC := 2 } = false ∧
    validate { sampleObject with totalOfTypeInScenario := 33 } = false ∧
    validate { sampleObject with costFactor := 255 } = false ∧
    validate { sampleObject with clearCostFactor := -231 } = false ∧
    validate { sampleObject with var_E9 := 3 } = false ∧
    validate { sampleObject with var_EA := 8 } = false ∧
    validate { sampleObject with var_DA := 101 } = false :=
  have h := validate_monotone sampleObject (by decide) (by decide) (by decide)
  ⟨by decide, h.1 0 (by decide), h.2.1 32 (by decide), h.2.2.1 2 (by decide),
    h.2.2.2.2.1 33 (by decide), h.2.2.2.2.2.1 255 (by decide) (by decide),
    h.2.2.2.2.2.2.1 (-231) (by decide) (by decide), h.2.2.2.2.2.2.2.2.1 3 (by decide),
    h.2.2.2.2.2.2.2.2.2.1 8 (by decide), h.2.2.2.2.2.2.2.2.2.2.2.2 101 (by decide)⟩

end IndustryObject
end OpenLoco

namespace OpenLoco
namespace IndustryObject

/-! ## The decoder -/

theorem toOption_eq_some {ε α : Type} {x : Except ε α} {a : α} (h : x.toOption = some a) :
    x = .ok a := by
  cases x with
  | error e => cases h
  | ok b =>
    injection h with h
    rw [h]

set_option maxRecDepth 100000 in
theorem sample_load :
    load sampleManager sampleLayout sampleObject ⟨0⟩ sampleData (some ⟨[]⟩) =
      .ok ⟨sampleLoaded, some ⟨sampleHeaders⟩, sampleHeaders⟩ := by
  rfl

set_option maxRecDepth 100000 in
theorem sample_loadUntilHeaders :
    loadUntilHeaders sampleManager sampleLayout sampleObject ⟨0⟩ sampleData =
      .ok (sampleDecoded, 268) := by
  rfl

theorem loadImageOffsets_eq_error {om : ObjectManager} {L : Layout} {data : List Nat}
    {o : IndustryObject} {pos : Nat} (hn : L.ndebug = false)
    (h : (om.loadImageTable (data.drop pos)).tableLength ≠ data.length - pos) :
    loadImageOffsets om L data o pos = .error .assertFailed := by
  unfold loadImageOffsets
  simp only
  rw [if_neg]
  rintro (hc | hc)
  · rw [hn] at hc
    cases hc
  · exact h hc.symm

theorem loadImageOffsets_ndebug {om : ObjectManager} {L : Layout} {data : List Nat}
    {o : IndustryObject} {pos : Nat} (hn : L.ndebug = true) :
    ∃ o1, loadImageOffsets om L data o pos = .ok o1 := by
  unfold loadImageOffsets
  simp only
  rw [if_pos (Or.inl hn)]
  exact ⟨_, rfl⟩

set_option maxRecDepth 100000 in
/-- C4, as stated, fails: under `releaseLayout`, where `NDEBUG` is defined, `load` returns an
object for a buffer that has two bytes left for an image table that reports three. -/
theorem load_ndebug_accepts_mismatch :
    ¬ ∀ (om : ObjectManager) (L : Layout) (o : IndustryObject) (handle : LoadedObjectHandle)
      (data : List Nat) (dependencies : Option DependentObjects) (r : LoadResult),
      load om L o handle data dependencies = .ok r →
      ∃ o2 s, loadBody om L o handle data dependencies = .ok (o2, s) ∧
        (om.loadImageTable (data.drop s.pos)).tableLength = data.length - s.pos := by
  intro hall
  obtain ⟨o2, s, hb, hl⟩ := hall sampleManager releaseLayout sampleObject ⟨0⟩
    (sampleBody ++ [3, 0]) none ⟨sampleLoaded, none, sampleHeaders⟩ (by rfl)
  have hbody : loadBody sampleManager releaseLayout sampleObject ⟨0⟩ (sampleBody ++ [3, 0])
      none = .ok ({ sampleLoaded with var_0E := 9, var_12 := 9, var_16 := 9, var_1A := 9 },
        ⟨444, none, sampleHeaders⟩) := by
    rfl
  rw [hbody] at hb
  injection hb with hb
  injection hb with h1 h2
  subst h2
  revert hl
  decide

/-- C4, as amended: where `NDEBUG` is not defined, `load` succeeds only if the length reported
by the image-table loader equals the number of bytes that remain after the last object-header
slot, and when the decoding reaches the image table and the reported length differs, in either
direction, `load` ends at its `assert`. The `assert` is the only check: where `NDEBUG` is
defined, `load` returns a decoded object whenever the decoding reaches the image table. -/
theorem load_consumes_remaining (om : ObjectManager) (L : Layout) (o : IndustryObject)
    (handle : LoadedObjectHandle) (data : List Nat) (dependencies : Option DependentObjects) :
    (L.ndebug = false → ∀ r, load om L o handle data dependencies = .ok r →
      ∃ o1 start o2 s, loadUntilHeaders om L o handle data = .ok (o1, start) ∧
        loadBody om L o handle data dependencies = .ok (o2, s) ∧
        s.pos = start + slotCount o * L.sizeofObjectHeader ∧ s.pos ≤ data.length ∧
        (om.loadImageTable (data.drop s.pos)).tableLength = data.length - s.pos) ∧
    (L.ndebug = false → ∀ o2 s, loadBody om L o handle data dependencies = .ok (o2, s) →
      (om.loadImageTable (data.drop s.pos)).tableLength ≠ data.length - s.pos →
      load om L o handle data dependencies = .error .assertFailed) ∧
    (L.ndebug = true → ∀ o2 s, loadBody om L o handle data dependencies = .ok (o2, s) →
      ∃ r, load om L o handle data dependencies = .ok r) := by
  refine ⟨?_, ?_, ?_⟩
  · intro hn r h
    obtain ⟨o2, s, hbody, himg, -, -⟩ := load_eq_ok h
    obtain ⟨o1, start, h1, h2⟩ := loadBody_eq_ok hbody
    obtain ⟨hp, hb, -⟩ := loadObjectHeaders_eq_ok h2
    rw [slotCount_eq_of_sameConfiguration (loadUntilHeaders_frame h1)] at hp
    exact ⟨o1, start, o2, s, h1, hbody, hp, hb, ((loadImageOffsets_eq_ok himg).1 hn).symm⟩
  · intro hn o2 s hbody hne
    unfold load
    rw [hbody]
    show (loadImageOffsets om L data o2 s.pos >>= _) = _
    rw [loadImageOffsets_eq_error hn hne]
    rfl
  · intro hn o2 s hbody
    obtain ⟨o3, h3⟩ := @loadImageOffsets_ndebug om L data o2 s.pos hn
    refine ⟨⟨o3, s.dependencies, s.lookups⟩, ?_⟩
    unfold load
    rw [hbody]
    show (loadImageOffsets om L data o2 s.pos >>= _) = _
    rw [h3]
    rfl

set_option maxRecDepth 100000 in
theorem load_consumes_remaining_witness :
    (∃ o1 start o2 s,
      loadUntilHeaders sampleManager sampleLayout sampleObject ⟨0⟩ sampleData = .ok (o1, start) ∧
      loadBody sampleManager sampleLayout sampleObject ⟨0⟩ sampleData none = .ok (o2, s) ∧
      s.pos = start + slotCount sampleObject * sampleLayout.sizeofObjectHeader ∧
      s.pos ≤ sampleData.length ∧
      (sampleManager.loadImageTable (sampleData.drop s.pos)).tableLength =
        sampleData.length - s.pos) ∧
    load sampleManager sampleLayout sampleObject ⟨0⟩ (sampleBody ++ [3, 0]) none =
      .error .assertFailed ∧
    load sampleManager sampleLayout sampleObject ⟨0⟩ (sampleBody ++ [3, 0, 0, 0]) none =
      .error .assertFailed ∧
    (∃ r, load sampleManager releaseLayout sampleObject ⟨0⟩ (sampleBody ++ [3, 0, 0, 0]) none =
      .ok r) :=
  ⟨(load_consumes_remaining sampleManager sampleLayout sampleObject ⟨0⟩ sampleData none).1 rfl
      ⟨sampleLoaded, none, sampleHeaders⟩ (by rfl),
    (load_consumes_remaining sampleManager sampleLayout sampleObject ⟨0⟩ (sampleBody ++ [3, 0])
      none).2.1 rfl { sampleLoaded with var_0E := 9, var_12 := 9, var_16 := 9, var_1A := 9 }
      ⟨444, none, sampleHeaders⟩ (by rfl) (by decide),
    (load_consumes_remaining sampleManager sampleLayout sampleObject ⟨0⟩
      (sampleBody ++ [3, 0, 0, 0]) none).2.1 rfl
      { sampleLoaded with var_0E := 9, var_12 := 9, var_16 := 9, var_1A := 9 }
      ⟨444, none, sampleHeaders⟩ (by rfl) (by decide),
    (load_consumes_remaining sampleManager releaseLayout sampleObject ⟨0⟩
      (sampleBody ++ [3, 0, 0, 0]) none).2.2 rfl
      { sampleLoaded with var_0E := 9, var_12 := 9, var_16 := 9, var_1A := 9 }
      ⟨444, none, sampleHeaders⟩ (by rfl)⟩

theorem presentHeader_isSome (L : Layout) (data : List Nat) (p : Nat) :
    (presentHeader L data p).isSome = decide (data[p]? ≠ some 0xFF) := by
  unfold presentHeader
  by_cases h : data[p]? = some 0xFF
  · rw [if_pos h]; simp [h]
  · rw [if_neg h]; simp [h]

theorem presentHeaders_length (L : Layout) (data : List Nat) (start n : Nat) :
    (presentHeaders L data start n).length =
      (slotOffsets L start n).countP (fun p => decide (data[p]? ≠ some 0xFF)) := by
  unfold presentHeaders
  rw [List.length_filterMap_eq_countP]
  congr 1
  funext p
  exact presentHeader_isSome L data p

/-- C5: when `load` succeeds with a dependency sink, the `required` list of the sink afterwards is
the list before followed by the headers of the present slots (first byte not 0xFF), in stream
order, the slots being those of `producedCargoType`, `requiredCargoType`, `wallTypes`, `var_F1`
and `var_F2` in this order; the number of headers appended is the number of present slots,
whatever the lookups return. -/
theorem load_dependency_fidelity (om : ObjectManager) (L : Layout) (o : IndustryObject)
    (handle : LoadedObjectHandle) (data : List Nat) (d : DependentObjects) (r : LoadResult)
    (h : load om L o handle data (some d) = .ok r) :
    ∃ o1 start, loadUntilHeaders om L o handle data = .ok (o1, start) ∧
      r.dependencies =
        some { required := d.required ++ presentHeaders L data start (slotCount o) } ∧
      (presentHeaders L data start (slotCount o)).length =
        (slotOffsets L start (slotCount o)).countP (fun p => decide (data[p]? ≠ some 0xFF)) ∧
      slotIds r.object = (slotOffsets L start (slotCount o)).map (resolvedId om L data) := by
  obtain ⟨o1, start, h1, -, hids, -, hdep⟩ := load_headers h
  exact ⟨o1, start, h1, hdep, presentHeaders_length L data start (slotCount o), hids⟩

theorem load_dependency_fidelity_witness :
    ∃ o1 start,
      loadUntilHeaders sampleManager sampleLayout sampleObject ⟨0⟩ sampleData = .ok (o1, start) ∧
      some (DependentObjects.mk sampleHeaders) =
        some { required := [] ++
          presentHeaders sampleLayout sampleData start (slotCount sampleObject) } ∧
      (presentHeaders sampleLayout sampleData start (slotCount sampleObject)).length =
        (slotOffsets sampleLayout start (slotCount sampleObject)).countP
          (fun p => decide (sampleData[p]? ≠ some 0xFF)) ∧
      slotIds sampleLoaded =
        (slotOffsets sampleLayout start (slotCount sampleObject)).map
          (resolvedId sampleManager sampleLayout sampleData) :=
  load_dependency_fidelity sampleManager sampleLayout sampleObject ⟨0⟩ sampleData ⟨[]⟩
    ⟨sampleLoaded, some ⟨sampleHeaders⟩, sampleHeaders⟩ sample_load

theorem headerAt_head (L : Layout) (data : List Nat) (p : Nat) :
    (headerAt L data p).bytes.head? = data[p]? := by
  unfold headerAt
  have hpos : L.sizeofObjectHeader ≠ 0 := Nat.pos_iff_ne_zero.mp L.sizes_pos.2.2.2
  simp only
  rw [List.head?_take, if_neg hpos, List.head?_drop]

theorem headerAt_not_mem_presentHeaders (L : Layout) (data : List Nat) (start n p : Nat)
    (h : data[p]? = some 0xFF) : headerAt L data p ∉ presentHeaders L data start n := by
  intro hmem
  unfold presentHeaders at hmem
  obtain ⟨q, -, hq⟩ := List.mem_filterMap.mp hmem
  unfold presentHeader at hq
  split at hq
  · cases hq
  · rename_i hne
    injection hq with hq
    have e : data[q]? = data[p]? := by
      rw [← headerAt_head L data q, ← headerAt_head L data p, hq]
    exact hne (e.trans h)

theorem slotOffsets_getElem? (L : Layout) (start n k : Nat) (hk : k < n) :
    (slotOffsets L start n)[k]? = some (start + k * L.sizeofObjectHeader) := by
  unfold slotOffsets
  rw [List.getElem?_range' _ _ hk, Nat.mul_comm]

theorem resolvedId_of_absent (om : ObjectManager) (L : Layout) (data : List Nat) (p : Nat)
    (h : data[p]? = some 0xFF) : resolvedId om L data p = 0xFF := by
  unfold resolvedId presentHeader
  rw [if_pos h]

/-- C6: when `load` succeeds, the calls of `findObjectHandle` are the headers of the present
slots and the sink receives these headers only; for every slot whose first byte in the stream is
0xFF the decoded id is 0xFF, and the bytes of that slot are neither looked up nor appended to
the sink. -/
theorem load_sentinel_respect (om : ObjectManager) (L : Layout) (o : IndustryObject)
    (handle : LoadedObjectHandle) (data : List Nat) (dependencies : Option DependentObjects)
    (r : LoadResult) (h : load om L o handle data dependencies = .ok r) :
    ∃ o1 start appended, loadUntilHeaders om L o handle data = .ok (o1, start) ∧
      r.lookups = appended ∧ r.dependencies = appendRequired dependencies appended ∧
      appended.length =
        (slotOffsets L start (slotCount o)).countP (fun p => decide (data[p]? ≠ some 0xFF)) ∧
      ∀ k, k < slotCount o → data[start + k * L.sizeofObjectHeader]? = some 0xFF →
        (slotIds r.object)[k]? = some 0xFF ∧
        headerAt L data (start + k * L.sizeofObjectHeader) ∉ appended := by
  obtain ⟨o1, start, h1, -, hids, hlk, hdep⟩ := load_headers h
  refine ⟨o1, start, presentHeaders L data start (slotCount o), h1, hlk, hdep,
    presentHeaders_length L data start (slotCount o), ?_⟩
  intro k hk habs
  refine ⟨?_, headerAt_not_mem_presentHeaders L data start _ _ habs⟩
  rw [hids, List.getElem?_map, slotOffsets_getElem? L start _ k hk, Option.map_some',
    resolvedId_of_absent om L data _ habs]

set_option maxRecDepth 100000 in
theorem load_sentinel_respect_witness :
    sampleData[268 + 1 * 16]? = some 0xFF ∧
    (slotIds sampleLoaded)[1]? = some 0xFF ∧
    headerAt sampleLayout sampleData (268 + 1 * 16) ∉ sampleHeaders ∧
    sampleHeaders.length =
      (slotOffsets sampleLayout 268 11).countP (fun p => decide (sampleData[p]? ≠ some 0xFF)) := by
  obtain ⟨o1, start, appended, h1, h2, -, h4, h5⟩ :=
    load_sentinel_respect sampleManager sampleLayout sampleObject ⟨0⟩ sampleData (some ⟨[]⟩)
      ⟨sampleLoaded, some ⟨sampleHeaders⟩, sampleHeaders⟩ sample_load
  rw [sample_loadUntilHeaders] at h1
  injection h1 with h1
  injection h1 with h6 h7
  subst h7
  have h8 : sampleHeaders = appended := h2
  subst h8
  have habs : sampleData[268 + 1 * 16]? = some 0xFF := by decide
  exact ⟨habs, (h5 1 (by decide) habs).1, (h5 1 (by decide) habs).2, h4⟩

theorem resolvedId_eq_absent_iff (om : ObjectManager) (L : Layout) (data : List Nat) (p : Nat)
    (hid : ∀ header res, om.findObjectHandle header = some res → toUInt8 res.id ≠ 0xFF) :
    resolvedId om L data p = 0xFF ↔
      (data[p]? = some 0xFF ∨ om.findObjectHandle (headerAt L data p) = none) := by
  unfold resolvedId presentHeader
  by_cases h : data[p]? = some 0xFF
  · rw [if_pos h]
    simp [h]
  · rw [if_neg h]
    simp only [h, false_or]
    cases hf : om.findObjectHandle (headerAt L data p) with
    | none => simp
    | some res =>
      simp only [reduceCtorEq, iff_false]
      exact hid _ _ hf

/-- C7, as amended: when the lookup never resolves a header to an id that is stored as 0xFF, then
after a successful `load` a resolved-id slot equals 0xFF exactly when its header slot in the
stream starts with 0xFF or the lookup of its header finds no handle. -/
theorem load_slot_absent_iff (om : ObjectManager) (L : Layout) (o : IndustryObject)
    (handle : LoadedObjectHandle) (data : List Nat) (dependencies : Option DependentObjects)
    (r : LoadResult)
    (hid : ∀ header res, om.findObjectHandle header = some res → toUInt8 res.id ≠ 0xFF)
    (h : load om L o handle data dependencies = .ok r) :
    ∃ o1 start, loadUntilHeaders om L o handle data = .ok (o1, start) ∧
      ∀ k, k < slotCount o →
        ((slotIds r.object)[k]? = some 0xFF ↔
          (data[start + k * L.sizeofObjectHeader]? = some 0xFF ∨
            om.findObjectHandle (headerAt L data (start + k * L.sizeofObjectHeader)) = none)) := by
  obtain ⟨o1, start, h1, -, hids, -, -⟩ := load_headers h
  refine ⟨o1, start, h1, ?_⟩
  intro k hk
  rw [hids, List.getElem?_map, slotOffsets_getElem? L start _ k hk, Option.map_some',
    ← resolvedId_eq_absent_iff om L data _ hid]
  constructor
  · intro e
    injection e
  · intro e
    rw [e]

theorem sampleManager_ids (header : ObjectHeader) (res : LoadedObjectHandle)
    (h : sampleManager.findObjectHandle header = some res) : toUInt8 res.id ≠ 0xFF := by
  unfold sampleManager at h
  simp only at h
  split at h
  · injection h with h
    subst h
    decide
  · cases h

theorem load_slot_absent_iff_witness :
    ((slotIds sampleLoaded)[0]? = some 0xFF ↔
      (sampleData[268 + 0 * 16]? = some 0xFF ∨
        sampleManager.findObjectHandle (headerAt sampleLayout sampleData (268 + 0 * 16)) =
          none)) ∧
    ((slotIds sampleLoaded)[1]? = some 0xFF ↔
      (sampleData[268 + 1 * 16]? = some 0xFF ∨
        sampleManager.findObjectHandle (headerAt sampleLayout sampleData (268 + 1 * 16)) =
          none)) ∧
    ((slotIds sampleLoaded)[2]? = some 0xFF ↔
      (sampleData[268 + 2 * 16]? = some 0xFF ∨
        sampleManager.findObjectHandle (headerAt sampleLayout sampleData (268 + 2 * 16)) =
          none)) := by
  obtain ⟨o1, start, h1, h2⟩ :=
    load_slot_absent_iff sampleManager sampleLayout sampleObject ⟨0⟩ sampleData (some ⟨[]⟩)
      ⟨sampleLoaded, some ⟨sampleHeaders⟩, sampleHeaders⟩ sampleManager_ids sample_load
  rw [sample_loadUntilHeaders] at h1
  injection h1 with h1
  injection h1 with h3 h4
  subst h4
  exact ⟨h2 0 (by decide), h2 1 (by decide), h2 2 (by decide)⟩

set_option maxRecDepth 100000 in
/-- C7, as stated, fails: under `collidingManager` the header of the first required-cargo slot of
`sampleData` starts with 2 and resolves to the object with id 255, and the slot is 0xFF. -/
theorem load_slot_absent_iff_fails :
    ¬ ∀ (om : ObjectManager) (L : Layout) (o : IndustryObject) (handle : LoadedObjectHandle)
      (data : List Nat) (dependencies : Option DependentObjects) (r : LoadResult),
      load om L o handle data dependencies = .ok r →
      ∃ o1 start, loadUntilHeaders om L o handle data = .ok (o1, start) ∧
        ∀ k, k < slotCount o →
          ((slotIds r.object)[k]? = some 0xFF ↔
            (data[start + k * L.sizeofObjectHeader]? = some 0xFF ∨
              om.findObjectHandle (headerAt L data (start + k * L.sizeofObjectHeader)) =
                none)) := by
  intro hall
  obtain ⟨o1, start, h1, h2⟩ := hall collidingManager sampleLayout sampleObject ⟨0⟩ sampleData
    none ⟨sampleLoaded, none, sampleHeaders⟩ (by rfl)
  have hstart : loadUntilHeaders collidingManager sampleLayout sampleObject ⟨0⟩ sampleData =
      .ok (sampleDecoded, 268) := by
    rfl
  rw [hstart] at h1
  injection h1 with h1
  injection h1 with h3 h4
  subst h4
  have h5 := (h2 2 (by decide)).mp (by decide)
  revert h5
  decide


/-! ## The unloader -/

set_option maxRecDepth 100000 in
/-- C8, as stated, fails: no single object state is the outcome of every `load` followed by
`unload`, since `unload` leaves `totalOfTypeInScenario`, which `load` does not assign either, as
it is. -/
theorem load_unload_not_fresh :
    ¬ ∃ fresh : IndustryObject,
      ∀ (om : ObjectManager) (L : Layout) (o : IndustryObject) (handle : LoadedObjectHandle)
        (data : List Nat) (dependencies : Option DependentObjects) (r : LoadResult),
        load om L o handle data dependencies = .ok r → unload r.object = fresh := by
  rintro ⟨fresh, hall⟩
  have h1 := hall sampleManager sampleLayout sampleObject ⟨0⟩ sampleData none
    ⟨sampleLoaded, none, sampleHeaders⟩ (by rfl)
  have h2 := hall sampleManager sampleLayout { sampleObject with totalOfTypeInScenario := 2 }
    ⟨0⟩ sampleData none
    ⟨{ sampleLoaded with totalOfTypeInScenario := 2 }, none, sampleHeaders⟩ (by rfl)
  have h3 := congrArg IndustryObject.totalOfTypeInScenario (h1.trans h2.symm)
  revert h3
  decide

/-- C8, as amended: after a successful `load`, `unload` leaves the object in the state in which
`unload` leaves the object as it was before `load`: the fields that `load` assigns are reset and
every other field keeps the value it had before `load`; so an object that was in its unloaded
state before `load` is in that state again. -/
theorem load_unload_eq_unload (om : ObjectManager) (L : Layout) (o : IndustryObject)
    (handle : LoadedObjectHandle) (data : List Nat) (dependencies : Option DependentObjects)
    (r : LoadResult) (h : load om L o handle data dependencies = .ok r) :
    unload r.object = unload o ∧ (unload o = o → unload r.object = o) := by
  have key := unload_eq_of_sameConfiguration (load_frame h)
  exact ⟨key, fun ho => key.trans ho⟩

theorem load_unload_eq_unload_witness :
    unload sampleLoaded = unload sampleObject ∧
    (unload sampleObject = sampleObject → unload sampleLoaded = sampleObject) :=
  load_unload_eq_unload sampleManager sampleLayout sampleObject ⟨0⟩ sampleData (some ⟨[]⟩)
    ⟨sampleLoaded, some ⟨sampleHeaders⟩, sampleHeaders⟩ sample_load

/-- C9: on every object state `unload` sets the seven name ids to 0, the four image bases to 0,
the pointers and every entry of the pointer arrays to null, and every resolved-id slot to 0, not
0xFF; it changes no other field. A successful `load` changes no field that `unload` does not
reset, so every field that `load` assigns is one that `unload` resets. -/
theorem unload_resets (o : IndustryObject) :
    ((unload o).name = 0 ∧ (unload o).var_02 = 0 ∧ (unload o).nameClosingDown = 0 ∧
      (unload o).nameUpProduction = 0 ∧ (unload o).nameDownProduction = 0 ∧
      (unload o).nameSingular = 0 ∧ (unload o).namePlural = 0) ∧
    ((unload o).var_0E = 0 ∧ (unload o).var_12 = 0 ∧ (unload o).var_16 = 0 ∧
      (unload o).var_1A = 0) ∧
    ((unload o).buildingPartHeight = none ∧ (unload o).buildingPartAnimations = none ∧
      (unload o).animationSequences = List.replicate o.animationSequences.length none ∧
      (unload o).var_38 = none ∧
      (unload o).buildingParts = List.replicate o.buildingParts.length none ∧
      (unload o).var_BE = none) ∧
    ((unload o).producedCargoType = List.replicate o.producedCargoType.length 0 ∧
      (unload o).requiredCargoType = List.replicate o.requiredCargoType.length 0 ∧
      (unload o).wallTypes = List.replicate o.wallTypes.length 0 ∧
      (unload o).var_F1 = 0 ∧ (unload o).var_F2 = 0) ∧
    SameConfiguration o (unload o) ∧
    (∀ (om : ObjectManager) (L : Layout) (handle : LoadedObjectHandle) (data : List Nat)
      (dependencies : Option DependentObjects) (r : LoadResult),
      load om L o handle data dependencies = .ok r →
      SameConfiguration o r.object ∧ unload r.object = unload o) := by
  refine ⟨⟨rfl, rfl, rfl, rfl, rfl, rfl, rfl⟩, ⟨rfl, rfl, rfl, rfl⟩,
    ⟨rfl, rfl, List.map_const' _ _, rfl, List.map_const' _ _, rfl⟩,
    ⟨List.map_const' _ _, List.map_const' _ _, List.map_const' _ _, rfl, rfl⟩, ?_, ?_⟩
  · unfold SameConfiguration unload
    simp
  · intro om L handle data dependencies r h
    exact ⟨load_frame h, unload_eq_of_sameConfiguration (load_frame h)⟩

theorem unload_resets_witness :
    (unload sampleLoaded).producedCargoType = [0, 0] ∧
    (unload sampleLoaded).var_F2 = 0 ∧
    SameConfiguration sampleObject sampleLoaded ∧
    unload sampleLoaded = unload sampleObject :=
  have h := unload_resets sampleObject
  have g := unload_resets sampleLoaded
  ⟨g.2.2.2.1.1, g.2.2.2.1.2.2.2.2,
    (h.2.2.2.2.2 sampleManager sampleLayout ⟨0⟩ sampleData (some ⟨[]⟩)
      ⟨sampleLoaded, some ⟨sampleHeaders⟩, sampleHeaders⟩ sample_load).1,
    (h.2.2.2.2.2 sampleManager sampleLayout ⟨0⟩ sampleData (some ⟨[]⟩)
      ⟨sampleLoaded, some ⟨sampleHeaders⟩, sampleHeaders⟩ sample_load).2⟩

/-- C10: `unload` is idempotent on every object state. -/
theorem unload_idempotent (o : IndustryObject) : unload (unload o) = unload o := by
  unfold unload
  simp only [List.map_map]
  rfl

end IndustryObject
end OpenLoco

namespace OpenLoco
namespace IndustryObject

/-! ## Lemmas on the sections of the stream -/

theorem findSentinel_eq_some : ∀ (l : List Nat) (n : Nat), findSentinel l = some n →
    n < l.length ∧ l[n]? = some 0xFF ∧ ∀ b ∈ l.take n, b ≠ 0xFF := by
  intro l
  induction l with
  | nil => intro n h; cases h
  | cons b rest ih =>
    intro n h
    unfold findSentinel at h
    by_cases hb : b ≠ 0xFF
    · rw [if_pos hb] at h
      cases hr : findSentinel rest with
      | none => rw [hr] at h; cases h
      | some m =>
        rw [hr] at h
        simp only [Option.map_some', Option.some.injEq] at h
        subst h
        obtain ⟨h1, h2, h3⟩ := ih m hr
        refine ⟨by simp only [List.length_cons]; omega, by simpa using h2, ?_⟩
        intro x hx
        rw [List.take_succ_cons, List.mem_cons] at hx
        rcases hx with hx | hx
        · rw [hx]; exact hb
        · exact h3 x hx
    · rw [if_neg hb] at h
      injection h with h
      subst h
      refine ⟨by simp, ?_, by simp⟩
      simp only [List.getElem?_cons_zero, Option.some.injEq]
      exact not_not.mp hb

theorem drop_eq_cons_of_getElem? {data : List Nat} {pos b : Nat} (h : data[pos]? = some b) :
    data.drop pos = b :: data.drop (pos + 1) := by
  obtain ⟨hlt, hb⟩ := List.getElem?_eq_some.mp h
  rw [List.drop_eq_getElem_cons hlt, hb]

theorem scanToSentinel_eq_ok {data : List Nat} {stride : Nat} :
    ∀ (fuel pos s : Nat), scanToSentinel data stride fuel pos = .ok s →
      pos ≤ s ∧ data[s]? = some 0xFF := by
  intro fuel
  induction fuel with
  | zero => intro pos s h; cases h
  | succ n ih =>
    intro pos s h
    rw [scanToSentinel] at h
    cases hp : peek data pos with
    | error e => rw [hp] at h; cases h
    | ok b =>
      rw [hp] at h
      simp only at h
      by_cases hb : b ≠ 0xFF
      · rw [if_pos hb] at h
        cases hsub : subspan data pos stride with
        | error e => rw [hsub] at h; cases h
        | ok next =>
          rw [hsub] at h
          simp only at h
          obtain ⟨h1, h2⟩ := ih next s h
          have hn := (subspan_eq_ok hsub).1
          exact ⟨by omega, h2⟩
      · rw [if_neg hb] at h
        injection h with h
        subst h
        have hb2 : b = 0xFF := not_not.mp hb
        subst hb2
        exact ⟨Nat.le_refl _, peek_eq_ok hp⟩

theorem scanToSentinel_one_eq_ok {data : List Nat} :
    ∀ (fuel pos s : Nat), scanToSentinel data 1 fuel pos = .ok s →
      ∃ n, s = pos + n ∧ findSentinel (data.drop pos) = some n := by
  intro fuel
  induction fuel with
  | zero => intro pos s h; cases h
  | succ k ih =>
    intro pos s h
    rw [scanToSentinel] at h
    cases hp : peek data pos with
    | error e => rw [hp] at h; cases h
    | ok b =>
      rw [hp] at h
      simp only at h
      have hd := drop_eq_cons_of_getElem? (peek_eq_ok hp)
      by_cases hb : b ≠ 0xFF
      · rw [if_pos hb] at h
        cases hsub : subspan data pos 1 with
        | error e => rw [hsub] at h; cases h
        | ok next =>
          rw [hsub] at h
          simp only at h
          have hn := (subspan_eq_ok hsub).1
          subst hn
          obtain ⟨n, h1, h2⟩ := ih (pos + 1) s h
          refine ⟨n + 1, by omega, ?_⟩
          rw [hd, findSentinel, if_pos hb, h2]
          rfl
      · rw [if_neg hb] at h
        injection h with h
        subst h
        refine ⟨0, rfl, ?_⟩
        rw [hd, findSentinel, if_neg hb]

theorem seqChain_le {data : List Nat} :
    ∀ (starts : List Nat) (pos last : Nat), SeqChain data starts pos last →
      pos ≤ last ∧ (∀ x ∈ starts, pos ≤ x ∧ x < last) ∧ starts.Pairwise (· ≤ ·) := by
  intro starts
  induction starts with
  | nil =>
    intro pos last h
    unfold SeqChain at h
    subst h
    exact ⟨Nat.le_refl _, by simp, List.Pairwise.nil⟩
  | cons p rest ih =>
    intro pos last h
    unfold SeqChain at h
    obtain ⟨hp, h⟩ := h
    subst hp
    cases hs : data[p]? with
    | none => rw [hs] at h; exact absurd h id
    | some size =>
      rw [hs] at h
      simp only at h
      obtain ⟨h1, h2, h3⟩ := ih _ _ h
      refine ⟨by omega, ?_, ?_⟩
      · intro x hx
        rw [List.mem_cons] at hx
        rcases hx with hx | hx
        · subst hx; exact ⟨Nat.le_refl _, by omega⟩
        · have := h2 x hx
          exact ⟨by omega, this.2⟩
      · rw [List.pairwise_cons]
        refine ⟨?_, h3⟩
        intro x hx
        have := h2 x hx
        omega

theorem partChain_le {data : List Nat} :
    ∀ (starts : List Nat) (pos last : Nat), PartChain data starts pos last →
      pos ≤ last ∧ (∀ x ∈ starts, pos ≤ x ∧ x < last) ∧ starts.Pairwise (· ≤ ·) := by
  intro starts
  induction starts with
  | nil =>
    intro pos last h
    unfold PartChain at h
    subst h
    exact ⟨Nat.le_refl _, by simp, List.Pairwise.nil⟩
  | cons p rest ih =>
    intro pos last h
    unfold PartChain at h
    obtain ⟨hp, h⟩ := h
    subst hp
    cases hs : findSentinel (data.drop p) with
    | none => rw [hs] at h; exact absurd h id
    | some n =>
      rw [hs] at h
      simp only at h
      obtain ⟨h1, h2, h3⟩ := ih _ _ h
      refine ⟨by omega, ?_, ?_⟩
      · intro x hx
        rw [List.mem_cons] at hx
        rcases hx with hx | hx
        · subst hx; exact ⟨Nat.le_refl _, by omega⟩
        · have := h2 x hx
          exact ⟨by omega, this.2⟩
      · rw [List.pairwise_cons]
        refine ⟨?_, h3⟩
        intro x hx
        have := h2 x hx
        omega

theorem loadAnimationSequences_eq_ok {data : List Nat} :
    ∀ (entries : List BufPtr) (pos : Nat) (ptrs : List BufPtr) (last : Nat),
      loadAnimationSequences data entries pos = .ok (ptrs, last) →
      ∃ starts : List Nat, ptrs = starts.map some ∧ starts.length = entries.length ∧
        SeqChain data starts pos last := by
  intro entries
  induction entries with
  | nil =>
    intro pos ptrs last h
    unfold loadAnimationSequences at h
    injection h with h
    injection h with h1 h2
    subst h1 h2
    exact ⟨[], rfl, rfl, rfl⟩
  | cons x rest ih =>
    intro pos ptrs last h
    unfold loadAnimationSequences at h
    obtain ⟨size, hsize, h⟩ := bind_eq_ok h
    obtain ⟨next, hnext, h⟩ := bind_eq_ok h
    obtain ⟨⟨ptrs1, last1⟩, hrest, h⟩ := bind_eq_ok h
    injection h with h
    injection h with h1 h2
    subst h1 h2
    obtain ⟨starts, e1, e2, e3⟩ := ih _ _ _ hrest
    have hn := (subspan_eq_ok hnext).1
    refine ⟨pos :: starts, by rw [e1]; rfl, by simp [e2], ?_⟩
    unfold SeqChain
    refine ⟨rfl, ?_⟩
    rw [peek_eq_ok hsize]
    simp only
    have e : pos + size + 1 = next := by rw [hn]; omega
    rw [e]
    exact e3

theorem loadBuildingPartLists_eq_ok {data : List Nat} :
    ∀ (n i : Nat) (parts : List BufPtr) (pos : Nat) (parts1 : List BufPtr) (last : Nat),
      loadBuildingPartLists data n i parts pos = .ok (parts1, last) →
      ∃ starts : List Nat, starts.length = n ∧ (n = 0 ∨ i + n ≤ parts.length) ∧
        parts1 = parts.take i ++ starts.map some ++ parts.drop (i + n) ∧
        PartChain data starts pos last ∧ (n = 0 ∨ last ≤ data.length) := by
  intro n
  induction n with
  | zero =>
    intro i parts pos parts1 last h
    unfold loadBuildingPartLists at h
    injection h with h
    injection h with h1 h2
    subst h1 h2
    refine ⟨[], rfl, Or.inl rfl, ?_, rfl, Or.inl rfl⟩
    simp
  | succ n ih =>
    intro i parts pos parts1 last h
    unfold loadBuildingPartLists at h
    split at h
    · rename_i hi
      obtain ⟨sentinel, hscan, h⟩ := bind_eq_ok h
      obtain ⟨next, hnext, h⟩ := bind_eq_ok h
      obtain ⟨starts, e1, e2, e3, e4, e5⟩ := ih _ _ _ _ _ h
      obtain ⟨q, hq1, hq2⟩ := scanToSentinel_one_eq_ok _ _ _ hscan
      obtain ⟨hn1, hn2⟩ := subspan_eq_ok hnext
      have hlen : (parts.set i (some pos)).length = parts.length := List.length_set _ _ _
      refine ⟨pos :: starts, by simp [e1], Or.inr ?_, ?_, ?_, Or.inr ?_⟩
      · rcases e2 with e2 | e2
        · subst e2; omega
        · rw [hlen] at e2; omega
      · rw [e3, List.set_eq_take_append_cons_drop, if_pos hi]
        have t1 : List.take (i + 1) (List.take i parts ++ some pos :: List.drop (i + 1) parts) =
            List.take i parts ++ [some pos] := by
          have hl : (List.take i parts ++ [some pos]).length = i + 1 := by
            rw [List.length_append, List.length_take, Nat.min_eq_left (Nat.le_of_lt hi)]
            rfl
          have := @List.take_left' _ _ (List.drop (i + 1) parts) _ hl
          simpa using this
        have t2 : List.drop (i + 1 + n) (List.take i parts ++ some pos :: List.drop (i + 1) parts) =
            List.drop (i + (n + 1)) parts := by
          have hl : (List.take i parts ++ [some pos]).length = i + 1 := by
            rw [List.length_append, List.length_take, Nat.min_eq_left (Nat.le_of_lt hi)]
            rfl
          have h3 : List.take i parts ++ some pos :: List.drop (i + 1) parts =
              (List.take i parts ++ [some pos]) ++ List.drop (i + 1) parts := by simp
          rw [h3, ← List.drop_drop, List.drop_left' hl, List.drop_drop]
          congr 1
          omega
        rw [t1, t2]
        simp
      · unfold PartChain
        refine ⟨rfl, ?_⟩
        rw [hq2]
        simp only
        have e : pos + q + 1 = next := by omega
        rw [e]
        exact e4
      · rcases e5 with e5 | e5
        · subst e5
          have hnil : starts = [] := List.length_eq_zero.mp e1
          subst hnil
          unfold PartChain at e4
          omega
        · exact e5
    · cases h

theorem loadStrings_eq_ok {om : ObjectManager} {handle : LoadedObjectHandle} {data : List Nat}
    {o o1 : IndustryObject} {pos p : Nat} (h : loadStrings om handle data o pos = .ok (o1, p)) :
    pos ≤ p ∧ p ≤ data.length ∧
    o1 = { o with
      name := o1.name, var_02 := o1.var_02, nameClosingDown := o1.nameClosingDown,
      nameUpProduction := o1.nameUpProduction, nameDownProduction := o1.nameDownProduction,
      nameSingular := o1.nameSingular, namePlural := o1.namePlural } := by
  unfold loadStrings at h
  obtain ⟨⟨s0, p0⟩, h0, h⟩ := bind_eq_ok h
  obtain ⟨⟨s1, p1⟩, h1, h⟩ := bind_eq_ok h
  obtain ⟨⟨s2, p2⟩, h2, h⟩ := bind_eq_ok h
  obtain ⟨⟨s3, p3⟩, h3, h⟩ := bind_eq_ok h
  obtain ⟨⟨s4, p4⟩, h4, h⟩ := bind_eq_ok h
  obtain ⟨⟨s5, p5⟩, h5, h⟩ := bind_eq_ok h
  obtain ⟨⟨s6, p6⟩, h6, h⟩ := bind_eq_ok h
  obtain ⟨⟨s7, p7⟩, h7, h⟩ := bind_eq_ok h
  injection h with h
  injection h with e1 e2
  subst e1 e2
  have b0 := (loadString_eq_ok h0).2
  have b1 := (loadString_eq_ok h1).2
  have b2 := (loadString_eq_ok h2).2
  have b3 := (loadString_eq_ok h3).2
  have b4 := (loadString_eq_ok h4).2
  have b5 := (loadString_eq_ok h5).2
  have b6 := (loadString_eq_ok h6).2
  have b7 := (loadString_eq_ok h7).2
  simp only at b0 b1 b2 b3 b4 b5 b6 b7
  refine ⟨by omega, ?_, rfl⟩
  unfold loadString at h7
  simp only at h7
  split at h7
  · cases h7
  · rename_i next hnext
    injection h7 with h7
    injection h7 with e3 e4
    have := (subspan_eq_ok hnext)
    omega

theorem loadBuildingParts_eq_ok {L : Layout} {data : List Nat} {o o1 : IndustryObject}
    {pos p : Nat} (h : loadBuildingParts L data o pos = .ok (o1, p)) :
    ∃ (seqs : List Nat) (v38 s38 : Nat) (starts : List Nat) (be : Nat),
      o1 = { o with
        buildingPartHeight := some pos, buildingPartAnimations := some (pos + o.var_1E),
        animationSequences := seqs.map some, var_38 := some v38,
        buildingParts := starts.map some ++ o.buildingParts.drop o.var_1F,
        var_BE := some be } ∧
      pos + o.var_1E + o.var_1E * L.sizeofBuildingPartAnimation ≤ data.length ∧
      seqs.length = o.animationSequences.length ∧
      SeqChain data seqs (pos + o.var_1E + o.var_1E * L.sizeofBuildingPartAnimation) v38 ∧
      scanToSentinel data L.sizeofIndustryObjectUnk38 (data.length + 1) v38 = .ok s38 ∧
      s38 + 1 ≤ data.length ∧
      starts.length = o.var_1F ∧ (o.var_1F = 0 ∨ o.var_1F ≤ o.buildingParts.length) ∧
      PartChain data starts (s38 + 1) be ∧
      p = be + o.var_BD ∧ p ≤ data.length := by
  unfold loadBuildingParts at h
  obtain ⟨p1, hp1, h⟩ := bind_eq_ok h
  obtain ⟨p2, hp2, h⟩ := bind_eq_ok h
  obtain ⟨⟨ptrs, p3⟩, hseqs, h⟩ := bind_eq_ok h
  obtain ⟨sentinel, hscan, h⟩ := bind_eq_ok h
  obtain ⟨p4, hp4, h⟩ := bind_eq_ok h
  obtain ⟨⟨parts, p5⟩, hparts, h⟩ := bind_eq_ok h
  obtain ⟨p6, hp6, h⟩ := bind_eq_ok h
  injection h with h
  injection h with e1 e2
  subst e1 e2
  obtain ⟨a1, a2⟩ := subspan_eq_ok hp1
  obtain ⟨b1, b2⟩ := subspan_eq_ok hp2
  obtain ⟨c1, c2⟩ := subspan_eq_ok hp4
  obtain ⟨d1, d2⟩ := subspan_eq_ok hp6
  obtain ⟨seqs, s1, s2, s3⟩ := loadAnimationSequences_eq_ok _ _ _ _ hseqs
  obtain ⟨starts, t1, t2, t3, t4, -⟩ := loadBuildingPartLists_eq_ok _ _ _ _ _ _ hparts
  have ea : p1 = pos + o.var_1E := by omega
  subst ea
  subst s1 c1
  refine ⟨seqs, p3, sentinel, starts, p5, ?_, by omega, s2, ?_, hscan, c2, t1, ?_, t4,
    by omega, by omega⟩
  · rw [t3]
    simp
  · rw [b1] at s3
    exact s3
  · simpa using t2

theorem loadUntilHeaders_eq_ok {om : ObjectManager} {L : Layout} {o o1 : IndustryObject}
    {handle : LoadedObjectHandle} {data : List Nat} {start : Nat}
    (h : loadUntilHeaders om L o handle data = .ok (o1, start)) :
    ∃ (hp : Nat) (seqs : List Nat) (v38 s38 : Nat) (starts : List Nat) (be : Nat),
      L.sizeofIndustryObject ≤ hp ∧
      o1.buildingPartHeight = some hp ∧ o1.buildingPartAnimations = some (hp + o.var_1E) ∧
      o1.animationSequences = seqs.map some ∧ o1.var_38 = some v38 ∧
      o1.buildingParts = starts.map some ++ o.buildingParts.drop o.var_1F ∧
      o1.var_BE = some be ∧
      hp + o.var_1E + o.var_1E * L.sizeofBuildingPartAnimation ≤ data.length ∧
      seqs.length = o.animationSequences.length ∧
      SeqChain data seqs (hp + o.var_1E + o.var_1E * L.sizeofBuildingPartAnimation) v38 ∧
      scanToSentinel data L.sizeofIndustryObjectUnk38 (data.length + 1) v38 = .ok s38 ∧
      s38 + 1 ≤ data.length ∧
      starts.length = o.var_1F ∧ (o.var_1F = 0 ∨ o.var_1F ≤ o.buildingParts.length) ∧
      PartChain data starts (s38 + 1) be ∧
      start = be + o.var_BD ∧ start ≤ data.length := by
  unfold loadUntilHeaders at h
  obtain ⟨p0, hp0, h⟩ := bind_eq_ok h
  obtain ⟨⟨oa, pa⟩, ha, h⟩ := bind_eq_ok h
  obtain ⟨z1, -⟩ := subspan_eq_ok hp0
  obtain ⟨y1, -, y3⟩ := loadStrings_eq_ok ha
  obtain ⟨seqs, v38, s38, starts, be, e, f1, f2, f3, f4, f5, f6, f7, f8, f9, f10⟩ :=
    loadBuildingParts_eq_ok h
  have g1 : oa.var_1E = o.var_1E := by rw [y3]
  have g2 : oa.var_1F = o.var_1F := by rw [y3]
  have g3 : oa.var_BD = o.var_BD := by rw [y3]
  have g4 : oa.animationSequences = o.animationSequences := by rw [y3]
  have g5 : oa.buildingParts = o.buildingParts := by rw [y3]
  simp only [g1, g2, g3, g4, g5] at f1 f2 f3 f6 f7 f9
  refine ⟨pa, seqs, v38, s38, starts, be, by omega, ?_, ?_, ?_, ?_, ?_, ?_, f1, f2, f3, f4, f5,
    f6, f7, f8, f9, f10⟩
  · rw [e]
  · rw [e, ← g1]
  · rw [e]
  · rw [e]
  · rw [e, ← g2, ← g5]
  · rw [e]

end IndustryObject
end OpenLoco

namespace OpenLoco
namespace IndustryObject

/-! ## The object-header slots, failures included -/

theorem loadHeaderSlot_eq (om : ObjectManager) (L : Layout) (data : List Nat) (s : SlotState) :
    loadHeaderSlot om L data s =
      (slotAdvance L data s.pos).map (fun next =>
        (resolvedId om L data s.pos,
          { pos := next,
            dependencies := appendRequired s.dependencies (presentHeader L data s.pos).toList,
            lookups := s.lookups ++ (presentHeader L data s.pos).toList })) := by
  unfold loadHeaderSlot slotAdvance
  cases hp : peek data s.pos with
  | error e => rfl
  | ok first =>
    have hb := peek_eq_ok hp
    simp only [bind, Except.bind]
    by_cases hff : first ≠ 0xFF
    · rw [if_pos hff, if_pos hff]
      have hpres : presentHeader L data s.pos = some (headerAt L data s.pos) := by
        unfold presentHeader
        rw [if_neg]
        rw [hb]
        intro hc
        injection hc with hc
        exact hff hc
      cases hr : readObjectHeader L data s.pos with
      | error e => rfl
      | ok header =>
        have hh := readObjectHeader_eq_ok hr
        subst hh
        simp only
        cases hs : subspan data s.pos L.sizeofObjectHeader with
        | error e => rfl
        | ok next =>
          simp only [Except.map, pure, Except.pure]
          rw [hpres, pushRequired_eq]
          unfold resolvedId
          rw [hpres]
          rfl
    · rw [if_neg hff, if_neg hff]
      have hff2 : first = 0xFF := not_not.mp hff
      subst hff2
      have hpres : presentHeader L data s.pos = none := by
        unfold presentHeader
        rw [if_pos hb]
      cases hs : subspan data s.pos L.sizeofObjectHeader with
      | error e => rfl
      | ok next =>
        simp only [Except.map, pure, Except.pure]
        rw [hpres]
        unfold resolvedId
        rw [hpres]
        simp [appendRequired_nil]

theorem slotAdvance_eq_ok {L : Layout} {data : List Nat} {pos next : Nat}
    (h : slotAdvance L data pos = .ok next) : next = pos + L.sizeofObjectHeader := by
  unfold slotAdvance at h
  obtain ⟨first, -, h⟩ := bind_eq_ok h
  split at h
  · obtain ⟨header, -, h⟩ := bind_eq_ok h
    exact (subspan_eq_ok h).1
  · exact (subspan_eq_ok h).1

theorem loadHeaderSlots_eq (om : ObjectManager) (L : Layout) (data : List Nat) :
    ∀ (slots : List Nat) (s : SlotState),
      loadHeaderSlots om L data slots s =
        (slotsAdvance L data slots.length s.pos).map (fun next =>
          ((slotOffsets L s.pos slots.length).map (resolvedId om L data),
            { pos := next,
              dependencies :=
                appendRequired s.dependencies (presentHeaders L data s.pos slots.length),
              lookups := s.lookups ++ presentHeaders L data s.pos slots.length })) := by
  intro slots
  induction slots with
  | nil =>
    intro s
    unfold loadHeaderSlots slotsAdvance
    simp [Except.map, slotOffsets, presentHeaders, appendRequired_nil]
  | cons x rest ih =>
    intro s
    have hsplit : presentHeaders L data s.pos (rest.length + 1) =
        (presentHeader L data s.pos).toList ++
          presentHeaders L data (s.pos + L.sizeofObjectHeader) rest.length := by
      rw [Nat.add_comm rest.length 1, presentHeaders_add, presentHeaders_one, Nat.one_mul]
    unfold loadHeaderSlots
    rw [List.length_cons, slotsAdvance, loadHeaderSlot_eq]
    cases ha : slotAdvance L data s.pos with
    | error e => rfl
    | ok next =>
      have hn := slotAdvance_eq_ok ha
      subst hn
      simp only [Except.map, bind, Except.bind]
      rw [ih]
      simp only
      cases hb : slotsAdvance L data rest.length (s.pos + L.sizeofObjectHeader) with
      | error e => rfl
      | ok last =>
        simp only [Except.map, pure, Except.pure]
        rw [hsplit, slotOffsets_succ, appendRequired_append, List.append_assoc]
        rfl

theorem slotsAdvance_eq_ok {L : Layout} {data : List Nat} :
    ∀ (n pos next : Nat), slotsAdvance L data n pos = .ok next →
      next = pos + n * L.sizeofObjectHeader := by
  intro n
  induction n with
  | zero =>
    intro pos next h
    unfold slotsAdvance at h
    injection h with h
    omega
  | succ n ih =>
    intro pos next h
    unfold slotsAdvance at h
    obtain ⟨p, hp, h⟩ := bind_eq_ok h
    have h1 := slotAdvance_eq_ok hp
    have h2 := ih _ _ h
    rw [h2, h1, Nat.succ_mul]
    omega

theorem slotsAdvance_add (L : Layout) (data : List Nat) :
    ∀ (m n pos : Nat), slotsAdvance L data (m + n) pos =
      (slotsAdvance L data m pos >>= fun p => slotsAdvance L data n p) := by
  intro m
  induction m with
  | zero =>
    intro n pos
    rw [Nat.zero_add]
    rfl
  | succ m ih =>
    intro n pos
    rw [Nat.add_right_comm, slotsAdvance, slotsAdvance]
    cases ha : slotAdvance L data pos with
    | error e => rfl
    | ok next =>
      simp only [bind, Except.bind]
      exact ih n next

theorem slotsAdvance_one (L : Layout) (data : List Nat) (pos : Nat) :
    slotsAdvance L data 1 pos = slotAdvance L data pos := by
  unfold slotsAdvance
  cases ha : slotAdvance L data pos with
  | error e => rfl
  | ok next => rfl

theorem slotsAdvance_two (L : Layout) (data : List Nat) (pos : Nat) :
    slotsAdvance L data 2 pos = (slotAdvance L data pos >>= fun p => slotAdvance L data p) := by
  rw [slotsAdvance]
  cases ha : slotAdvance L data pos with
  | error e => rfl
  | ok next =>
    simp only [bind, Except.bind]
    exact slotsAdvance_one L data next

theorem presentHeaders_two (L : Layout) (data : List Nat) (start : Nat) :
    presentHeaders L data start 2 =
      (presentHeader L data start).toList ++
        (presentHeader L data (start + L.sizeofObjectHeader)).toList := by
  have h := presentHeaders_add L data start 1 1
  rw [presentHeaders_one, presentHeaders_one, Nat.one_mul] at h
  exact h

theorem loadObjectHeaders_eq (om : ObjectManager) (L : Layout) (data : List Nat)
    (o : IndustryObject) (s : SlotState) :
    loadObjectHeaders om L data o s =
      (slotsAdvance L data (slotCount o) s.pos).map (fun next =>
        (withDecodedSlots om L data o s.pos,
          { pos := next,
            dependencies :=
              appendRequired s.dependencies (presentHeaders L data s.pos (slotCount o)),
            lookups := s.lookups ++ presentHeaders L data s.pos (slotCount o) })) := by
  have hcount : slotCount o = o.producedCargoType.length + (o.requiredCargoType.length +
      (o.wallTypes.length + 2)) := by
    unfold slotCount; omega
  rw [hcount]
  unfold loadObjectHeaders
  rw [loadHeaderSlots_eq, slotsAdvance_add]
  cases h1 : slotsAdvance L data o.producedCargoType.length s.pos with
  | error e => rfl
  | ok p1 =>
    have e1 := slotsAdvance_eq_ok _ _ _ h1
    subst e1
    simp only [Except.map, bind, Except.bind]
    rw [loadHeaderSlots_eq, slotsAdvance_add]
    simp only
    cases h2 : slotsAdvance L data o.requiredCargoType.length
        (s.pos + o.producedCargoType.length * L.sizeofObjectHeader) with
    | error e => rfl
    | ok p2 =>
      have e2 := slotsAdvance_eq_ok _ _ _ h2
      subst e2
      simp only [Except.map, bind, Except.bind]
      rw [loadHeaderSlots_eq, slotsAdvance_add]
      simp only
      cases h3 : slotsAdvance L data o.wallTypes.length
          (s.pos + o.producedCargoType.length * L.sizeofObjectHeader +
            o.requiredCargoType.length * L.sizeofObjectHeader) with
      | error e => rfl
      | ok p3 =>
        have e3 := slotsAdvance_eq_ok _ _ _ h3
        subst e3
        simp only [Except.map, bind, Except.bind]
        rw [loadHeaderSlot_eq, slotsAdvance_two]
        simp only
        cases h4 : slotAdvance L data
            (s.pos + o.producedCargoType.length * L.sizeofObjectHeader +
              o.requiredCargoType.length * L.sizeofObjectHeader +
              o.wallTypes.length * L.sizeofObjectHeader) with
        | error e => rfl
        | ok p4 =>
          have e4 := slotAdvance_eq_ok h4
          subst e4
          simp only [Except.map, bind, Except.bind]
          rw [loadHeaderSlot_eq]
          simp only
          cases h5 : slotAdvance L data
              (s.pos + o.producedCargoType.length * L.sizeofObjectHeader +
                o.requiredCargoType.length * L.sizeofObjectHeader +
                o.wallTypes.length * L.sizeofObjectHeader + L.sizeofObjectHeader) with
          | error e => rfl
          | ok p5 =>
            simp only [Except.map, pure, Except.pure]
            have q1 : s.pos + (o.producedCargoType.length + o.requiredCargoType.length) *
                L.sizeofObjectHeader = s.pos + o.producedCargoType.length * L.sizeofObjectHeader +
                o.requiredCargoType.length * L.sizeofObjectHeader := by
              rw [Nat.add_mul]; omega
            have q2 : s.pos + (o.producedCargoType.length + o.requiredCargoType.length +
                o.wallTypes.length) * L.sizeofObjectHeader =
                s.pos + o.producedCargoType.length * L.sizeofObjectHeader +
                o.requiredCargoType.length * L.sizeofObjectHeader +
                o.wallTypes.length * L.sizeofObjectHeader := by
              rw [Nat.add_mul, Nat.add_mul]; omega
            have q3 : s.pos + (o.producedCargoType.length + o.requiredCargoType.length +
                o.wallTypes.length + 1) * L.sizeofObjectHeader =
                s.pos + o.producedCargoType.length * L.sizeofObjectHeader +
                o.requiredCargoType.length * L.sizeofObjectHeader +
                o.wallTypes.length * L.sizeofObjectHeader + L.sizeofObjectHeader := by
              rw [Nat.add_mul, Nat.add_mul, Nat.add_mul]; omega
            have hpres : presentHeaders L data s.pos (o.producedCargoType.length +
                (o.requiredCargoType.length + (o.wallTypes.length + 2))) =
                presentHeaders L data s.pos o.producedCargoType.length ++
                (presentHeaders L data
                  (s.pos + o.producedCargoType.length * L.sizeofObjectHeader)
                  o.requiredCargoType.length ++
                (presentHeaders L data
                  (s.pos + o.producedCargoType.length * L.sizeofObjectHeader +
                    o.requiredCargoType.length * L.sizeofObjectHeader) o.wallTypes.length ++
                ((presentHeader L data
                  (s.pos + o.producedCargoType.length * L.sizeofObjectHeader +
                    o.requiredCargoType.length * L.sizeofObjectHeader +
                    o.wallTypes.length * L.sizeofObjectHeader)).toList ++
                (presentHeader L data
                  (s.pos + o.producedCargoType.length * L.sizeofObjectHeader +
                    o.requiredCargoType.length * L.sizeofObjectHeader +
                    o.wallTypes.length * L.sizeofObjectHeader +
                    L.sizeofObjectHeader)).toList))) := by
              rw [presentHeaders_add, presentHeaders_add, presentHeaders_add,
                presentHeaders_two]
            rw [hpres]
            unfold withDecodedSlots
            simp only [q1, q2, q3, appendRequired_append, List.append_assoc]

end IndustryObject
end OpenLoco

namespace OpenLoco
namespace IndustryObject

/-! ## The whole of `load` -/

theorem loadImageOffsets_fields {om : ObjectManager} {L : Layout} {data : List Nat}
    {o o1 : IndustryObject} {pos : Nat} (h : loadImageOffsets om L data o pos = .ok o1) :
    o1 = { o with
      var_0E := (om.loadImageTable (data.drop pos)).imageOffset,
      var_12 :=
        if Nat.land o.flags L.hasShadows ≠ 0 then
          toUInt32 ((om.loadImageTable (data.drop pos)).imageOffset + o.var_1F * 4)
        else (om.loadImageTable (data.drop pos)).imageOffset,
      var_16 := toUInt32 (o.var_1E * 4 +
        if Nat.land o.flags L.hasShadows ≠ 0 then
          toUInt32 ((om.loadImageTable (data.drop pos)).imageOffset + o.var_1F * 4)
        else (om.loadImageTable (data.drop pos)).imageOffset),
      var_1A := toUInt32 (o.var_E9 * 21) } := by
  unfold loadImageOffsets at h
  simp only at h
  split at h
  · injection h with h
    exact h.symm
  · cases h

/-- What a successful `load` establishes about the sections before the object-header slots. -/
theorem load_sections {om : ObjectManager} {L : Layout} {o : IndustryObject}
    {handle : LoadedObjectHandle} {data : List Nat} {dependencies : Option DependentObjects}
    {r : LoadResult} (h : load om L o handle data dependencies = .ok r) :
    ∃ (o1 : IndustryObject) (hp : Nat) (seqs : List Nat) (v38 s38 : Nat) (starts : List Nat)
      (be : Nat),
      loadUntilHeaders om L o handle data = .ok (o1, be + o.var_BD) ∧
      L.sizeofIndustryObject ≤ hp ∧
      r.object.buildingPartHeight = some hp ∧
      r.object.buildingPartAnimations = some (hp + o.var_1E) ∧
      r.object.animationSequences = seqs.map some ∧ r.object.var_38 = some v38 ∧
      r.object.buildingParts = starts.map some ++ o.buildingParts.drop o.var_1F ∧
      r.object.var_BE = some be ∧
      hp + o.var_1E + o.var_1E * L.sizeofBuildingPartAnimation ≤ data.length ∧
      seqs.length = o.animationSequences.length ∧
      SeqChain data seqs (hp + o.var_1E + o.var_1E * L.sizeofBuildingPartAnimation) v38 ∧
      scanToSentinel data L.sizeofIndustryObjectUnk38 (data.length + 1) v38 = .ok s38 ∧
      s38 + 1 ≤ data.length ∧
      starts.length = o.var_1F ∧ (o.var_1F = 0 ∨ o.var_1F ≤ o.buildingParts.length) ∧
      PartChain data starts (s38 + 1) be ∧
      be + o.var_BD + slotCount o * L.sizeofObjectHeader ≤ data.length := by
  obtain ⟨o2, s, hbody, himg, -, -⟩ := load_eq_ok h
  obtain ⟨o1, start, h1, h2⟩ := loadBody_eq_ok hbody
  obtain ⟨hp, seqs, v38, s38, starts, be, a1, a2, a3, a4, a5, a6, a7, a8, a9, a10, a11, a12, a13,
    a14, a15, a16, a17⟩ := loadUntilHeaders_eq_ok h1
  obtain ⟨b1, b2, -, -, -, b3, -⟩ := loadObjectHeaders_eq_ok h2
  have hc := slotCount_eq_of_sameConfiguration (loadUntilHeaders_frame h1)
  have him := loadImageOffsets_fields himg
  subst a16
  refine ⟨o1, hp, seqs, v38, s38, starts, be, h1, a1, ?_, ?_, ?_, ?_, ?_, ?_, a8, a9, a10, a11,
    a12, a13, a14, a15, ?_⟩
  · rw [him]; simp only; rw [b3]; exact a2
  · rw [him]; simp only; rw [b3]; exact a3
  · rw [him]; simp only; rw [b3]; exact a4
  · rw [him]; simp only; rw [b3]; exact a5
  · rw [him]; simp only; rw [b3]; exact a6
  · rw [him]; simp only; rw [b3]; exact a7
  · rw [hc] at b1
    simp only at b1
    rw [← b1]
    exact b2

/-- The function `load` in terms of the cursor over the object-header slots. -/
theorem load_eq (om : ObjectManager) (L : Layout) (o : IndustryObject)
    (handle : LoadedObjectHandle) (data : List Nat) (dependencies : Option DependentObjects) :
    load om L o handle data dependencies =
      (loadUntilHeaders om L o handle data >>= fun x =>
        slotsAdvance L data (slotCount x.1) x.2 >>= fun next =>
          (loadImageOffsets om L data (withDecodedSlots om L data x.1 x.2) next).map (fun o3 =>
            { object := o3,
              dependencies :=
                appendRequired dependencies (presentHeaders L data x.2 (slotCount x.1)),
              lookups := presentHeaders L data x.2 (slotCount x.1) })) := by
  unfold load loadBody
  cases h1 : loadUntilHeaders om L o handle data with
  | error e => rfl
  | ok x =>
    obtain ⟨o1, start⟩ := x
    simp only [bind, Except.bind]
    rw [loadObjectHeaders_eq]
    simp only
    cases h2 : slotsAdvance L data (slotCount o1) start with
    | error e => rfl
    | ok next =>
      simp only [Except.map]
      cases h3 : loadImageOffsets om L data (withDecodedSlots om L data o1 start) next with
      | error e => rfl
      | ok o3 =>
        simp only [pure, Except.pure, List.nil_append]

end IndustryObject
end OpenLoco

namespace OpenLoco
namespace IndustryObject

/-! ## Bounds of the decoder -/

theorem partChain_getElem? {data : List Nat} :
    ∀ (starts : List Nat) (pos last k p : Nat), PartChain data starts pos last →
      starts[k]? = some p →
      ∃ n, findSentinel (data.drop p) = some n ∧ (starts ++ [last])[k + 1]? = some (p + n + 1) := by
  intro starts
  induction starts with
  | nil => intro pos last k p _ hk; cases hk
  | cons q rest ih =>
    intro pos last k p h hk
    unfold PartChain at h
    obtain ⟨hq, h⟩ := h
    cases hs : findSentinel (data.drop q) with
    | none => rw [hs] at h; exact absurd h id
    | some n =>
      rw [hs] at h
      simp only at h
      cases k with
      | zero =>
        simp only [List.getElem?_cons_zero, Option.some.injEq] at hk
        subst hk
        refine ⟨n, hs, ?_⟩
        cases rest with
        | nil =>
          unfold PartChain at h
          simp [h]
        | cons q2 rest2 =>
          unfold PartChain at h
          simp [h.1]
      | succ k =>
        simp only [List.getElem?_cons_succ] at hk
        obtain ⟨m, h1, h2⟩ := ih _ _ k p h hk
        exact ⟨m, h1, by simpa using h2⟩

end IndustryObject
end OpenLoco

namespace OpenLoco
namespace IndustryObject

theorem pairwise_le_append (l1 l2 : List Nat) (m u : Nat) (h1 : l1.Pairwise (· ≤ ·))
    (hb1 : ∀ x ∈ l1, x ≤ m) (h2 : l2.Pairwise (· ≤ ·)) (hb2 : ∀ y ∈ l2, m ≤ y ∧ y ≤ u)
    (hmu : m ≤ u) : (l1 ++ l2).Pairwise (· ≤ ·) ∧ ∀ x ∈ l1 ++ l2, x ≤ u := by
  constructor
  · rw [List.pairwise_append]
    refine ⟨h1, h2, ?_⟩
    intro a ha b hb
    exact Nat.le_trans (hb1 a ha) (hb2 b hb).1
  · intro x hx
    rw [List.mem_append] at hx
    rcases hx with hx | hx
    · exact Nat.le_trans (hb1 x hx) hmu
    · exact (hb2 x hx).2

/-- C12: after a successful `load` of a buffer, the view fields in decode order
(`buildingPartHeight`, `buildingPartAnimations`, the `animationSequences` entries, `var_38`, the
`buildingParts` entries below `var_1F`, `var_BE`) are offsets into the buffer that never
decrease, and each one is less than the length of the buffer. -/
theorem load_views_within (om : ObjectManager) (L : Layout) (o : IndustryObject)
    (handle : LoadedObjectHandle) (data : List Nat) (dependencies : Option DependentObjects)
    (r : LoadResult) (h : load om L o handle data dependencies = .ok r) :
    ∃ offsets : List Nat, viewPointers r.object = offsets.map some ∧
      offsets.Pairwise (· ≤ ·) ∧ ∀ x ∈ offsets, x < data.length := by
  obtain ⟨o1, hp, seqs, v38, s38, starts, be, -, a1, a2, a3, a4, a5, a6, a7, a8, a9, a10, a11,
    a12, a13, a14, a15, a16⟩ := load_sections h
  obtain ⟨e1, -⟩ := scanToSentinel_eq_ok _ _ _ a11
  obtain ⟨c1, c2, c3⟩ := seqChain_le _ _ _ a10
  obtain ⟨d1, d2, d3⟩ := partChain_le _ _ _ a15
  have hf := load_frame h
  have hv : r.object.var_1F = o.var_1F := hf.2.1
  have hsz := L.sizes_pos.2.2.2
  have hcount : 2 ≤ slotCount o := by unfold slotCount; omega
  have hbe : be < data.length := by
    have : 2 * 1 ≤ slotCount o * L.sizeofObjectHeader := Nat.mul_le_mul hcount hsz
    omega
  have htake : List.take o.var_1F (List.map some starts ++ List.drop o.var_1F o.buildingParts) =
      List.map some starts := List.take_left' (by rw [List.length_map, a13])
  have hchain : ([hp, hp + o.var_1E] ++ seqs ++ [v38] ++ starts ++ [be]).Pairwise (· ≤ ·) ∧
      ∀ x ∈ [hp, hp + o.var_1E] ++ seqs ++ [v38] ++ starts ++ [be], x ≤ be := by
    have s0 : [hp, hp + o.var_1E].Pairwise (· ≤ ·) := by
      rw [List.pairwise_cons]
      refine ⟨?_, List.pairwise_singleton _ _⟩
      intro x hx
      rw [List.mem_singleton] at hx
      omega
    have b0 : ∀ x ∈ [hp, hp + o.var_1E],
        x ≤ hp + o.var_1E + o.var_1E * L.sizeofBuildingPartAnimation := by
      intro x hx
      simp only [List.mem_cons, List.mem_singleton, List.not_mem_nil, or_false] at hx
      rcases hx with hx | hx <;> omega
    obtain ⟨s1, b1⟩ := pairwise_le_append _ seqs _ v38 s0 b0 c3
      (fun y hy => ⟨(c2 y hy).1, Nat.le_of_lt (c2 y hy).2⟩) c1
    obtain ⟨s2, b2⟩ := pairwise_le_append _ [v38] v38 (s38 + 1) s1 b1
      (List.pairwise_singleton _ _)
      (fun y hy => by rw [List.mem_singleton] at hy; omega) (by omega)
    obtain ⟨s3, b3⟩ := pairwise_le_append _ starts (s38 + 1) be s2 b2 d3
      (fun y hy => ⟨(d2 y hy).1, Nat.le_of_lt (d2 y hy).2⟩) d1
    exact pairwise_le_append _ [be] be be s3 b3 (List.pairwise_singleton _ _)
      (fun y hy => by rw [List.mem_singleton] at hy; omega) (Nat.le_refl _)
  refine ⟨[hp, hp + o.var_1E] ++ seqs ++ [v38] ++ starts ++ [be], ?_, hchain.1, ?_⟩
  · unfold viewPointers
    rw [a2, a3, a4, a5, a6, a7, hv, htake]
    simp
  · intro x hx
    exact Nat.lt_of_le_of_lt (hchain.2 x hx) hbe

theorem load_views_within_witness :
    ∃ offsets : List Nat, viewPointers sampleLoaded = offsets.map some ∧
      offsets.Pairwise (· ≤ ·) ∧ ∀ x ∈ offsets, x < sampleData.length :=
  load_views_within sampleManager sampleLayout sampleObject ⟨0⟩ sampleData (some ⟨[]⟩)
    ⟨sampleLoaded, some ⟨sampleHeaders⟩, sampleHeaders⟩ sample_load

end IndustryObject
end OpenLoco

namespace OpenLoco
namespace IndustryObject

set_option maxRecDepth 100000 in
theorem sample_load2 :
    load sampleManager sampleLayout sampleObject2 ⟨0⟩ sampleData2 none =
      .ok ⟨sampleLoaded2, none, sampleHeaders⟩ := by
  rfl

/-- C15, as stated, fails: `sampleObject2` has one part type (`var_1F = 1`) and its part heights
take two bytes, the number in `var_1E`. -/
theorem load_heights_not_part_type_count :
    ¬ ∀ (om : ObjectManager) (L : Layout) (o : IndustryObject) (handle : LoadedObjectHandle)
      (data : List Nat) (dependencies : Option DependentObjects) (r : LoadResult),
      load om L o handle data dependencies = .ok r →
      ∃ hp, r.object.buildingPartHeight = some hp ∧
        r.object.buildingPartAnimations = some (hp + o.var_1F) := by
  intro hall
  obtain ⟨hp, h1, h2⟩ := hall sampleManager sampleLayout sampleObject2 ⟨0⟩ sampleData2 none
    ⟨sampleLoaded2, none, sampleHeaders⟩ sample_load2
  have e1 : some 252 = some hp := h1
  have e2 : some 254 = some (hp + 1) := h2
  injection e1 with e1
  injection e2 with e2
  omega

/-- C15, as amended: in `load` the part heights take `var_1E` bytes and the part animations
`var_1E` records, so that the section after them starts `var_1E` bytes and `var_1E` records
after the part heights; the number of building part lists decoded is the other count
`var_1F`. -/
theorem load_section_counts (om : ObjectManager) (L : Layout) (o : IndustryObject)
    (handle : LoadedObjectHandle) (data : List Nat) (dependencies : Option DependentObjects)
    (r : LoadResult) (h : load om L o handle data dependencies = .ok r) :
    ∃ (hp : Nat) (seqs : List Nat) (v38 s38 : Nat) (starts : List Nat) (be : Nat),
      r.object.buildingPartHeight = some hp ∧
      r.object.buildingPartAnimations = some (hp + o.var_1E) ∧
      r.object.animationSequences = seqs.map some ∧ r.object.var_38 = some v38 ∧
      (seqs ++ [v38]).head? =
        some (hp + o.var_1E + o.var_1E * L.sizeofBuildingPartAnimation) ∧
      r.object.buildingParts = starts.map some ++ o.buildingParts.drop o.var_1F ∧
      starts.length = o.var_1F ∧ PartChain data starts (s38 + 1) be ∧
      r.object.var_BE = some be := by
  obtain ⟨o1, hp, seqs, v38, s38, starts, be, -, -, a2, a3, a4, a5, a6, a7, -, -, a10, -,
    -, a13, -, a15, -⟩ := load_sections h
  refine ⟨hp, seqs, v38, s38, starts, be, a2, a3, a4, a5, ?_, a6, a13, a15, a7⟩
  cases seqs with
  | nil =>
    unfold SeqChain at a10
    simp [a10]
  | cons p rest =>
    unfold SeqChain at a10
    simp [a10.1]

theorem load_section_counts_witness :
    ∃ (hp : Nat) (seqs : List Nat) (v38 s38 : Nat) (starts : List Nat) (be : Nat),
      sampleLoaded2.buildingPartHeight = some hp ∧
      sampleLoaded2.buildingPartAnimations = some (hp + sampleObject2.var_1E) ∧
      sampleLoaded2.animationSequences = seqs.map some ∧ sampleLoaded2.var_38 = some v38 ∧
      (seqs ++ [v38]).head? =
        some (hp + sampleObject2.var_1E +
          sampleObject2.var_1E * sampleLayout.sizeofBuildingPartAnimation) ∧
      sampleLoaded2.buildingParts =
        starts.map some ++ sampleObject2.buildingParts.drop sampleObject2.var_1F ∧
      starts.length = sampleObject2.var_1F ∧ PartChain sampleData2 starts (s38 + 1) be ∧
      sampleLoaded2.var_BE = some be :=
  load_section_counts sampleManager sampleLayout sampleObject2 ⟨0⟩ sampleData2 none
    ⟨sampleLoaded2, none, sampleHeaders⟩ sample_load2

theorem getElem?_map_some_append {starts : List Nat} {tail : List BufPtr} {i : Nat}
    (hi : i < starts.length) :
    (starts.map some ++ tail)[i]? = (starts[i]?).map some := by
  rw [List.getElem?_append_left (by rw [List.length_map]; exact hi), List.getElem?_map]

/-- C16: after a successful `load`, for every `i < var_1F`, `getBuildingParts(i)` returns the
view that starts at the stored start of list `i` and ends before the first 0xFF: no byte of the
view is 0xFF, the byte after the view is 0xFF, the view is empty when the list starts with 0xFF,
and the next list, or `var_BE` after the last list, starts one byte after the end of the view.
The view depends on the stored pointers and the buffer only. -/
theorem getBuildingParts_after_load (om : ObjectManager) (L : Layout) (o : IndustryObject)
    (handle : LoadedObjectHandle) (data : List Nat) (dependencies : Option DependentObjects)
    (r : LoadResult) (i : Nat) (h : load om L o handle data dependencies = .ok r)
    (hi : i < o.var_1F) :
    ∃ p n, r.object.buildingParts[i]? = some (some p) ∧
      getBuildingParts data r.object i = .ok ⟨p, n⟩ ∧
      (ByteView.bytes data ⟨p, n⟩).length = n ∧
      (∀ b ∈ ByteView.bytes data ⟨p, n⟩, b ≠ 0xFF) ∧
      data[p + n]? = some 0xFF ∧ (data[p]? = some 0xFF → n = 0) ∧
      (r.object.buildingParts.take o.var_1F ++ [r.object.var_BE])[i + 1]? =
        some (some (p + n + 1)) ∧
      ∀ o1 : IndustryObject, o1.buildingParts = r.object.buildingParts →
        getBuildingParts data o1 i = .ok ⟨p, n⟩ := by
  obtain ⟨o1, hp, seqs, v38, s38, starts, be, -, -, -, -, -, -, a6, a7, -, -, -, -,
    -, a13, -, a15, -⟩ := load_sections h
  have hi2 : i < starts.length := by rw [a13]; exact hi
  obtain ⟨p, hp1⟩ : ∃ p, starts[i]? = some p := ⟨starts[i], List.getElem?_eq_getElem hi2⟩
  obtain ⟨n, hn1, hn2⟩ := partChain_getElem? starts _ _ i p a15 hp1
  obtain ⟨f1, f2, f3⟩ := findSentinel_eq_some _ _ hn1
  have hptr : r.object.buildingParts[i]? = some (some p) := by
    rw [a6, getElem?_map_some_append hi2, hp1]
    rfl
  have hget : ∀ o2 : IndustryObject, o2.buildingParts = r.object.buildingParts →
      getBuildingParts data o2 i = .ok ⟨p, n⟩ := by
    intro o2 ho2
    unfold getBuildingParts
    rw [ho2, hptr]
    simp only
    rw [hn1]
  have htake : List.take o.var_1F (List.map some starts ++ List.drop o.var_1F o.buildingParts) =
      List.map some starts := List.take_left' (by rw [List.length_map, a13])
  refine ⟨p, n, hptr, hget r.object rfl, ?_, f3, ?_, ?_, ?_, hget⟩
  · unfold ByteView.bytes
    simp only
    rw [List.length_take]
    omega
  · rw [← List.getElem?_drop]
    exact f2
  · intro h0
    have hd := drop_eq_cons_of_getElem? h0
    rw [hd, findSentinel, if_neg (by simp)] at hn1
    injection hn1 with hn1
    exact hn1.symm
  · rw [a6, a7, htake]
    have e : List.map some starts ++ [some be] = List.map some (starts ++ [be]) := by simp
    rw [e, List.getElem?_map, hn2]
    rfl

set_option maxRecDepth 100000 in
theorem getBuildingParts_after_load_witness :
    ∃ p n, sampleLoaded.buildingParts[0]? = some (some p) ∧
      getBuildingParts sampleData sampleLoaded 0 = .ok ⟨p, n⟩ ∧
      (ByteView.bytes sampleData ⟨p, n⟩).length = n ∧
      (∀ b ∈ ByteView.bytes sampleData ⟨p, n⟩, b ≠ 0xFF) ∧
      sampleData[p + n]? = some 0xFF ∧ (sampleData[p]? = some 0xFF → n = 0) ∧
      (sampleLoaded.buildingParts.take sampleObject.var_1F ++ [sampleLoaded.var_BE])[0 + 1]? =
        some (some (p + n + 1)) ∧
      ∀ o1 : IndustryObject, o1.buildingParts = sampleLoaded.buildingParts →
        getBuildingParts sampleData o1 0 = .ok ⟨p, n⟩ :=
  getBuildingParts_after_load sampleManager sampleLayout sampleObject ⟨0⟩ sampleData (some ⟨[]⟩)
    ⟨sampleLoaded, some ⟨sampleHeaders⟩, sampleHeaders⟩ 0 sample_load (by decide)

end IndustryObject
end OpenLoco

namespace OpenLoco
namespace IndustryObject

/-! ## No write beyond `buildingParts` -/

theorem bind_ne_index {α β : Type} {x : Except LoadError α} {f : α → Except LoadError β}
    (hx : x ≠ .error .indexOutOfRange)
    (hf : ∀ a, x = .ok a → f a ≠ .error .indexOutOfRange) :
    (x >>= f) ≠ .error .indexOutOfRange := by
  cases x with
  | error e =>
    intro h
    have h2 : (Except.error e : Except LoadError β) = .error .indexOutOfRange := h
    injection h2 with h2
    exact hx (by rw [h2])
  | ok a => exact hf a rfl

theorem map_ne_index {α β : Type} {x : Except LoadError α} {f : α → β}
    (hx : x ≠ .error .indexOutOfRange) : x.map f ≠ .error .indexOutOfRange := by
  cases x with
  | error e =>
    intro h
    have h2 : (Except.error e : Except LoadError β) = .error .indexOutOfRange := h
    injection h2 with h2
    exact hx (by rw [h2])
  | ok a =>
    intro h
    cases h

theorem subspan_ne_index (data : List Nat) (pos n : Nat) :
    subspan data pos n ≠ .error .indexOutOfRange := by
  unfold subspan
  split <;> intro h <;> cases h

theorem peek_ne_index (data : List Nat) (pos : Nat) :
    peek data pos ≠ .error .indexOutOfRange := by
  unfold peek
  split <;> intro h <;> cases h

theorem readObjectHeader_ne_index (L : Layout) (data : List Nat) (pos : Nat) :
    readObjectHeader L data pos ≠ .error .indexOutOfRange := by
  unfold readObjectHeader
  split <;> intro h <;> cases h

theorem scanToSentinel_ne_index (data : List Nat) (stride : Nat) :
    ∀ fuel pos : Nat, scanToSentinel data stride fuel pos ≠ .error .indexOutOfRange := by
  intro fuel
  induction fuel with
  | zero =>
    intro pos h
    cases h
  | succ n ih =>
    intro pos
    rw [scanToSentinel]
    cases hp : peek data pos with
    | error e =>
      have := peek_ne_index data pos
      rw [hp] at this
      exact this
    | ok b =>
      simp only
      split
      · cases hs : subspan data pos stride with
        | error e =>
          have := subspan_ne_index data pos stride
          rw [hs] at this
          exact this
        | ok next => exact ih next
      · intro h
        cases h

theorem loadString_ne_index (om : ObjectManager) (handle : LoadedObjectHandle) (data : List Nat)
    (pos num : Nat) : loadString om handle data pos num ≠ .error .indexOutOfRange := by
  unfold loadString
  simp only
  cases hs : subspan data pos (om.loadStringTable (data.drop pos) handle num).tableLength with
  | error e =>
    have := subspan_ne_index data pos (om.loadStringTable (data.drop pos) handle num).tableLength
    rw [hs] at this
    intro h
    have h2 : (Except.error e : Except LoadError (StringId × Nat)) =
        .error .indexOutOfRange := h
    injection h2 with h2
    exact this (by rw [h2])
  | ok next =>
    intro h
    cases h

theorem loadStrings_ne_index (om : ObjectManager) (handle : LoadedObjectHandle) (data : List Nat)
    (o : IndustryObject) (pos : Nat) :
    loadStrings om handle data o pos ≠ .error .indexOutOfRange := by
  unfold loadStrings
  refine bind_ne_index (loadString_ne_index _ _ _ _ _) (fun a _ => ?_)
  refine bind_ne_index (loadString_ne_index _ _ _ _ _) (fun a _ => ?_)
  refine bind_ne_index (loadString_ne_index _ _ _ _ _) (fun a _ => ?_)
  refine bind_ne_index (loadString_ne_index _ _ _ _ _) (fun a _ => ?_)
  refine bind_ne_index (loadString_ne_index _ _ _ _ _) (fun a _ => ?_)
  refine bind_ne_index (loadString_ne_index _ _ _ _ _) (fun a _ => ?_)
  refine bind_ne_index (loadString_ne_index _ _ _ _ _) (fun a _ => ?_)
  refine bind_ne_index (loadString_ne_index _ _ _ _ _) (fun a _ => ?_)
  intro h
  cases h

theorem loadAnimationSequences_ne_index (data : List Nat) :
    ∀ (entries : List BufPtr) (pos : Nat),
      loadAnimationSequences data entries pos ≠ .error .indexOutOfRange := by
  intro entries
  induction entries with
  | nil =>
    intro pos h
    cases h
  | cons x rest ih =>
    intro pos
    unfold loadAnimationSequences
    refine bind_ne_index (peek_ne_index _ _) (fun a _ => ?_)
    refine bind_ne_index (subspan_ne_index _ _ _) (fun b _ => ?_)
    refine bind_ne_index (ih _) (fun c _ => ?_)
    intro h
    cases h

theorem loadBuildingPartLists_ne_index (data : List Nat) :
    ∀ (n i : Nat) (parts : List BufPtr) (pos : Nat), i + n ≤ parts.length →
      loadBuildingPartLists data n i parts pos ≠ .error .indexOutOfRange := by
  intro n
  induction n with
  | zero =>
    intro i parts pos _ h
    cases h
  | succ n ih =>
    intro i parts pos hle
    unfold loadBuildingPartLists
    rw [if_pos (by omega)]
    refine bind_ne_index (scanToSentinel_ne_index _ _ _ _) (fun a _ => ?_)
    refine bind_ne_index (subspan_ne_index _ _ _) (fun b _ => ?_)
    exact ih _ _ _ (by rw [List.length_set]; omega)

theorem loadBuildingParts_ne_index (L : Layout) (data : List Nat) (o : IndustryObject)
    (pos : Nat) (hle : o.var_1F ≤ o.buildingParts.length) :
    loadBuildingParts L data o pos ≠ .error .indexOutOfRange := by
  unfold loadBuildingParts
  refine bind_ne_index (subspan_ne_index _ _ _) (fun a _ => ?_)
  refine bind_ne_index (subspan_ne_index _ _ _) (fun b _ => ?_)
  refine bind_ne_index (loadAnimationSequences_ne_index _ _ _) (fun c _ => ?_)
  refine bind_ne_index (scanToSentinel_ne_index _ _ _ _) (fun d _ => ?_)
  refine bind_ne_index (subspan_ne_index _ _ _) (fun e _ => ?_)
  refine bind_ne_index (loadBuildingPartLists_ne_index _ _ _ _ _ (by omega)) (fun f _ => ?_)
  refine bind_ne_index (subspan_ne_index _ _ _) (fun g _ => ?_)
  intro h
  cases h

theorem loadUntilHeaders_ne_index (om : ObjectManager) (L : Layout) (o : IndustryObject)
    (handle : LoadedObjectHandle) (data : List Nat) (hle : o.var_1F ≤ o.buildingParts.length) :
    loadUntilHeaders om L o handle data ≠ .error .indexOutOfRange := by
  unfold loadUntilHeaders
  refine bind_ne_index (subspan_ne_index _ _ _) (fun a _ => ?_)
  refine bind_ne_index (loadStrings_ne_index _ _ _ _ _) (fun b hb => ?_)
  obtain ⟨o1, p⟩ := b
  obtain ⟨-, -, ho⟩ := loadStrings_eq_ok hb
  have g1 : o1.var_1F = o.var_1F := by rw [ho]
  have g2 : o1.buildingParts = o.buildingParts := by rw [ho]
  exact loadBuildingParts_ne_index L data o1 p (by rw [g1, g2]; exact hle)

theorem slotAdvance_ne_index (L : Layout) (data : List Nat) (pos : Nat) :
    slotAdvance L data pos ≠ .error .indexOutOfRange := by
  unfold slotAdvance
  refine bind_ne_index (peek_ne_index _ _) (fun a _ => ?_)
  split
  · exact bind_ne_index (readObjectHeader_ne_index _ _ _) (fun b _ => subspan_ne_index _ _ _)
  · exact subspan_ne_index _ _ _

theorem slotsAdvance_ne_index (L : Layout) (data : List Nat) :
    ∀ n pos : Nat, slotsAdvance L data n pos ≠ .error .indexOutOfRange := by
  intro n
  induction n with
  | zero =>
    intro pos h
    cases h
  | succ n ih =>
    intro pos
    unfold slotsAdvance
    exact bind_ne_index (slotAdvance_ne_index _ _ _) (fun a _ => ih a)

theorem loadImageOffsets_ne_index (om : ObjectManager) (L : Layout) (data : List Nat)
    (o : IndustryObject) (pos : Nat) :
    loadImageOffsets om L data o pos ≠ .error .indexOutOfRange := by
  unfold loadImageOffsets
  simp only
  split <;> intro h <;> cases h

theorem load_ne_index (om : ObjectManager) (L : Layout) (o : IndustryObject)
    (handle : LoadedObjectHandle) (data : List Nat) (dependencies : Option DependentObjects)
    (hle : o.var_1F ≤ o.buildingParts.length) :
    load om L o handle data dependencies ≠ .error .indexOutOfRange := by
  rw [load_eq]
  refine bind_ne_index (loadUntilHeaders_ne_index om L o handle data hle) (fun x _ => ?_)
  refine bind_ne_index (slotsAdvance_ne_index _ _ _ _) (fun next _ => ?_)
  exact map_ne_index (loadImageOffsets_ne_index _ _ _ _ _)

/-- C19: `load` assigns `buildingParts[i]` for the indices below `var_1F` and for no other
index; when `1 <= var_1F <= 31` and the array has 32 entries, `load` makes no write beyond the
array, and after a successful `load` every index below `var_1F` is within the array, also for
`getBuildingParts`. `load` does not check `var_1F`: on `overflowObject`, with `var_1F = 33`, it
writes beyond the array. -/
theorem load_part_indices (om : ObjectManager) (L : Layout) (o : IndustryObject)
    (handle : LoadedObjectHandle) (data : List Nat) (dependencies : Option DependentObjects)
    (hv : 1 ≤ o.var_1F ∧ o.var_1F ≤ 31) (hcap : o.buildingParts.length = 32) :
    load om L o handle data dependencies ≠ .error .indexOutOfRange ∧
    (∀ r, load om L o handle data dependencies = .ok r →
      r.object.buildingParts.length = 32 ∧
      (∀ i, i < o.var_1F →
        i < r.object.buildingParts.length ∧
        (∃ p, r.object.buildingParts[i]? = some (some p)) ∧
        getBuildingParts data r.object i ≠ .error .indexOutOfRange) ∧
      (∀ i, o.var_1F ≤ i → r.object.buildingParts[i]? = o.buildingParts[i]?)) ∧
    (overflowObject.buildingParts.length = 32 ∧ overflowObject.var_1F = 33 ∧
      load sampleManager sampleLayout overflowObject ⟨0⟩ overflowData none =
        .error .indexOutOfRange) := by
  refine ⟨load_ne_index om L o handle data dependencies (by omega), ?_, ?_⟩
  · intro r h
    have hlen : r.object.buildingParts.length = 32 := by
      have := (load_frame h).2.2.2.2.2.2.2.2.2.2.2.2.2.2.2.1
      omega
    obtain ⟨o1, hp, seqs, v38, s38, starts, be, -, -, -, -, -, -, a6, -, -, -, -, -,
      -, a13, -, -, -⟩ := load_sections h
    refine ⟨hlen, ?_, ?_⟩
    · intro i hi
      have hi2 : i < starts.length := by rw [a13]; exact hi
      have hptr : r.object.buildingParts[i]? = some (some starts[i]) := by
        rw [a6, getElem?_map_some_append hi2, List.getElem?_eq_getElem hi2]
        rfl
      refine ⟨by omega, ⟨_, hptr⟩, ?_⟩
      unfold getBuildingParts
      rw [hptr]
      simp only
      split <;> intro hc <;> cases hc
    · intro i hi
      rw [a6, List.getElem?_append_right (by rw [List.length_map, a13]; exact hi),
        List.length_map, a13, List.getElem?_drop]
      congr 1
      omega
  · refine ⟨by decide, by decide, ?_⟩
    set_option maxRecDepth 100000 in
    rfl

theorem load_part_indices_witness :
    load sampleManager sampleLayout sampleObject ⟨0⟩ sampleData (some ⟨[]⟩) ≠
      .error .indexOutOfRange ∧
    (sampleLoaded.buildingParts.length = 32 ∧
      (∀ i, i < sampleObject.var_1F →
        i < sampleLoaded.buildingParts.length ∧
        (∃ p, sampleLoaded.buildingParts[i]? = some (some p)) ∧
        getBuildingParts sampleData sampleLoaded i ≠ .error .indexOutOfRange) ∧
      (∀ i, sampleObject.var_1F ≤ i →
        sampleLoaded.buildingParts[i]? = sampleObject.buildingParts[i]?)) :=
  have h := load_part_indices sampleManager sampleLayout sampleObject ⟨0⟩ sampleData
    (some ⟨[]⟩) (by decide) (by decide)
  ⟨h.1, h.2.1 ⟨sampleLoaded, some ⟨sampleHeaders⟩, sampleHeaders⟩ sample_load⟩

end IndustryObject
end OpenLoco

namespace OpenLoco
namespace IndustryObject

/-! ## What the outcome of `load` depends on -/

/-- C13: `load` with a dependency sink has the outcome of `load` with a null sink: the same
failure, or the same object and the same lookups; the only difference is the sink, which has
received the headers that were looked up. -/
theorem load_sink_independent (om : ObjectManager) (L : Layout) (o : IndustryObject)
    (handle : LoadedObjectHandle) (data : List Nat) (d : DependentObjects) :
    load om L o handle data (some d) =
      (load om L o handle data none).map (fun r =>
        { r with dependencies := some { required := d.required ++ r.lookups } }) := by
  rw [load_eq, load_eq]
  cases h1 : loadUntilHeaders om L o handle data with
  | error e => rfl
  | ok x =>
    simp only [bind, Except.bind]
    cases h2 : slotsAdvance L data (slotCount x.1) x.2 with
    | error e => rfl
    | ok next =>
      simp only
      cases h3 : loadImageOffsets om L data (withDecodedSlots om L data x.1 x.2) next with
      | error e => rfl
      | ok o3 => rfl

theorem loadUntilHeaders_congr (om1 om2 : ObjectManager) (L : Layout) (o : IndustryObject)
    (handle : LoadedObjectHandle) (data : List Nat)
    (hs : om1.loadStringTable = om2.loadStringTable) :
    loadUntilHeaders om1 L o handle data = loadUntilHeaders om2 L o handle data := by
  unfold loadUntilHeaders loadStrings loadString
  rw [hs]

theorem loadImageOffsets_withoutSlotIds (om1 om2 : ObjectManager) (L : Layout) (data : List Nat)
    (o1 o2 : IndustryObject) (pos : Nat) (hi : om1.loadImageTable = om2.loadImageTable)
    (ho : withoutSlotIds o1 = withoutSlotIds o2) :
    (loadImageOffsets om1 L data o1 pos).map withoutSlotIds =
      (loadImageOffsets om2 L data o2 pos).map withoutSlotIds := by
  unfold loadImageOffsets
  rw [hi]
  simp only
  have e1 : o1.flags = o2.flags := by
    have t := congrArg IndustryObject.flags ho
    exact t
  have e2 : o1.var_1F = o2.var_1F := by
    have t := congrArg IndustryObject.var_1F ho
    exact t
  have e3 : o1.var_1E = o2.var_1E := by
    have t := congrArg IndustryObject.var_1E ho
    exact t
  have e4 : o1.var_E9 = o2.var_E9 := by
    have t := congrArg IndustryObject.var_E9 ho
    exact t
  split
  · simp only [Except.map]
    congr 1
    unfold withoutSlotIds at ho ⊢
    simp only [IndustryObject.mk.injEq] at ho ⊢
    simp only [e1, e2, e3, e4]
    tauto
  · rfl

theorem withoutSlotIds_withDecodedSlots (om : ObjectManager) (L : Layout) (data : List Nat)
    (o : IndustryObject) (start : Nat) :
    withoutSlotIds (withDecodedSlots om L data o start) = withoutSlotIds o := by
  rfl

set_option maxRecDepth 100000 in
/-- C14, as stated, fails: on `sampleData` the first produced cargo slot is 3 under
`sampleManager`, where its header resolves, and 0xFF under `unresolvingManager`. -/
theorem load_depends_on_lookup :
    ¬ ∀ (om1 om2 : ObjectManager) (L : Layout) (o : IndustryObject)
      (handle : LoadedObjectHandle) (data : List Nat) (dependencies : Option DependentObjects)
      (r1 r2 : LoadResult),
      om1.loadStringTable = om2.loadStringTable → om1.loadImageTable = om2.loadImageTable →
      load om1 L o handle data dependencies = .ok r1 →
      load om2 L o handle data dependencies = .ok r2 → r1.object = r2.object := by
  intro hall
  have h := hall sampleManager unresolvingManager sampleLayout sampleObject ⟨0⟩ sampleData none
    ⟨sampleLoaded, none, sampleHeaders⟩ ⟨sampleUnresolved, none, sampleHeaders⟩ rfl rfl
    (by rfl) (by rfl)
  have h2 := congrArg IndustryObject.producedCargoType h
  revert h2
  decide

/-- C14, as amended: two runs of `load` on the same buffer, object, handle and table loaders,
under two states of the loaded-object table, have the same outcome, the same failure or
objects that agree in every field but the resolved-id slots, and the same sink and lookups;
the resolved-id slots are the ids that the table of the run gives. -/
theorem load_deterministic_up_to_ids (om1 om2 : ObjectManager) (L : Layout)
    (o : IndustryObject) (handle : LoadedObjectHandle) (data : List Nat)
    (dependencies : Option DependentObjects)
    (hs : om1.loadStringTable = om2.loadStringTable)
    (hi : om1.loadImageTable = om2.loadImageTable) :
    (load om1 L o handle data dependencies).map LoadResult.withoutSlotIds =
      (load om2 L o handle data dependencies).map LoadResult.withoutSlotIds ∧
    (∀ r1, load om1 L o handle data dependencies = .ok r1 →
      ∃ o1 start, loadUntilHeaders om1 L o handle data = .ok (o1, start) ∧
        slotIds r1.object = (slotOffsets L start (slotCount o)).map (resolvedId om1 L data)) := by
  constructor
  · rw [load_eq, load_eq, loadUntilHeaders_congr om1 om2 L o handle data hs]
    cases h1 : loadUntilHeaders om2 L o handle data with
    | error e => rfl
    | ok x =>
      simp only [bind, Except.bind]
      cases h2 : slotsAdvance L data (slotCount x.1) x.2 with
      | error e => rfl
      | ok next =>
        simp only
        have key := loadImageOffsets_withoutSlotIds om1 om2 L data
          (withDecodedSlots om1 L data x.1 x.2) (withDecodedSlots om2 L data x.1 x.2) next hi
          (by rw [withoutSlotIds_withDecodedSlots, withoutSlotIds_withDecodedSlots])
        cases h3 : loadImageOffsets om1 L data (withDecodedSlots om1 L data x.1 x.2) next with
        | error e =>
          rw [h3] at key
          cases h4 : loadImageOffsets om2 L data (withDecodedSlots om2 L data x.1 x.2) next with
          | error e2 =>
            rw [h4] at key
            simp only [Except.map] at key ⊢
            injection key with key
            rw [key]
          | ok o4 =>
            rw [h4] at key
            cases key
        | ok o3 =>
          rw [h3] at key
          cases h4 : loadImageOffsets om2 L data (withDecodedSlots om2 L data x.1 x.2) next with
          | error e2 =>
            rw [h4] at key
            cases key
          | ok o4 =>
            rw [h4] at key
            simp only [Except.map, Except.ok.injEq] at key ⊢
            unfold LoadResult.withoutSlotIds
            simp only [key]
  · intro r1 h
    obtain ⟨o1, start, h1, -, hids, -, -⟩ := load_headers h
    exact ⟨o1, start, h1, hids⟩

set_option maxRecDepth 100000 in
theorem load_deterministic_up_to_ids_witness :
    (load sampleManager sampleLayout sampleObject ⟨0⟩ sampleData none).map
        LoadResult.withoutSlotIds =
      (load unresolvingManager sampleLayout sampleObject ⟨0⟩ sampleData none).map
        LoadResult.withoutSlotIds ∧
    ∃ o1 start,
      loadUntilHeaders sampleManager sampleLayout sampleObject ⟨0⟩ sampleData = .ok (o1, start) ∧
      slotIds sampleLoaded =
        (slotOffsets sampleLayout start (slotCount sampleObject)).map
          (resolvedId sampleManager sampleLayout sampleData) :=
  have h := load_deterministic_up_to_ids sampleManager unresolvingManager sampleLayout
    sampleObject ⟨0⟩ sampleData none rfl rfl
  ⟨h.1, h.2 ⟨sampleLoaded, none, sampleHeaders⟩ (by rfl)⟩

end IndustryObject
end OpenLoco

namespace OpenLoco
namespace IndustryObject

/-! ## Image offsets, slot sizes and cargo predicates -/

/-- C17: after a successful `load`, `var_0E` is the offset that the image-table loader reports
for the bytes after the last header slot; `var_12` is `var_0E + 4 * var_1F` when the
`hasShadows` flag is set and `var_0E` otherwise; `var_16` is `var_12 + 4 * var_1E`; `var_1A` is
`21 * var_E9`; the sums and products are taken modulo 2^32. -/
theorem load_image_offsets (om : ObjectManager) (L : Layout) (o : IndustryObject)
    (handle : LoadedObjectHandle) (data : List Nat) (dependencies : Option DependentObjects)
    (r : LoadResult) (h : load om L o handle data dependencies = .ok r) :
    ∃ o2 s, loadBody om L o handle data dependencies = .ok (o2, s) ∧
      r.object.var_0E = (om.loadImageTable (data.drop s.pos)).imageOffset ∧
      r.object.var_12 =
        (if Nat.land o.flags L.hasShadows ≠ 0 then (r.object.var_0E + 4 * o.var_1F) % 2 ^ 32
          else r.object.var_0E) ∧
      r.object.var_16 = (r.object.var_12 + 4 * o.var_1E) % 2 ^ 32 ∧
      r.object.var_1A = (21 * o.var_E9) % 2 ^ 32 := by
  obtain ⟨o2, s, hbody, himg, -, -⟩ := load_eq_ok h
  obtain ⟨o1, start, h1, h2⟩ := loadBody_eq_ok hbody
  have hf := (loadUntilHeaders_frame h1).trans (loadObjectHeaders_frame h2)
  unfold SameConfiguration at hf
  obtain ⟨f1, f2, -, -, -, -, -, -, -, f10, -, f12, -⟩ := hf
  have him := loadImageOffsets_fields himg
  refine ⟨o2, s, hbody, ?_, ?_, ?_, ?_⟩
  · rw [him]
  · rw [him]
    simp only [f10, f2, toUInt32]
    split
    · rw [Nat.mul_comm]
      rfl
    · rfl
  · rw [him]
    simp only [f1, toUInt32]
    rw [Nat.mul_comm, Nat.add_comm]
    rfl
  · rw [him]
    simp only [f12, toUInt32]
    rw [Nat.mul_comm]
    rfl

theorem load_image_offsets_witness :
    ∃ o2 s, loadBody sampleManager sampleLayout sampleObject ⟨0⟩ sampleData (some ⟨[]⟩) =
        .ok (o2, s) ∧
      sampleLoaded.var_0E = (sampleManager.loadImageTable (sampleData.drop s.pos)).imageOffset ∧
      sampleLoaded.var_12 =
        (if Nat.land sampleObject.flags sampleLayout.hasShadows ≠ 0 then
          (sampleLoaded.var_0E + 4 * sampleObject.var_1F) % 2 ^ 32
          else sampleLoaded.var_0E) ∧
      sampleLoaded.var_16 = (sampleLoaded.var_12 + 4 * sampleObject.var_1E) % 2 ^ 32 ∧
      sampleLoaded.var_1A = (21 * sampleObject.var_E9) % 2 ^ 32 :=
  load_image_offsets sampleManager sampleLayout sampleObject ⟨0⟩ sampleData (some ⟨[]⟩)
    ⟨sampleLoaded, some ⟨sampleHeaders⟩, sampleHeaders⟩ sample_load

/-- C18: every object-header slot that `load` decodes moves the cursor by `sizeof(ObjectHeader)`,
whether the slot is absent or present and whatever the lookup returns, so that the slots of a
successful `load` take the number of slots times `sizeof(ObjectHeader)` bytes. -/
theorem load_slot_advance (om : ObjectManager) (L : Layout) (o : IndustryObject)
    (handle : LoadedObjectHandle) (data : List Nat) (dependencies : Option DependentObjects) :
    (∀ (s s1 : SlotState) (id : Nat), loadHeaderSlot om L data s = .ok (id, s1) →
      s1.pos = s.pos + L.sizeofObjectHeader) ∧
    (∀ (om2 : ObjectManager) (s : SlotState),
      (loadHeaderSlot om L data s).map (fun x => x.2.pos) =
        (loadHeaderSlot om2 L data s).map (fun x => x.2.pos)) ∧
    (∀ r, load om L o handle data dependencies = .ok r →
      ∃ o1 start o2 s, loadUntilHeaders om L o handle data = .ok (o1, start) ∧
        loadBody om L o handle data dependencies = .ok (o2, s) ∧
        s.pos = start + slotCount o * L.sizeofObjectHeader) := by
  refine ⟨?_, ?_, ?_⟩
  · intro s s1 id h
    exact (loadHeaderSlot_eq_ok h).1
  · intro om2 s
    rw [loadHeaderSlot_eq, loadHeaderSlot_eq]
    cases slotAdvance L data s.pos with
    | error e => rfl
    | ok next => rfl
  · intro r h
    obtain ⟨o2, s, hbody, -, -, -⟩ := load_eq_ok h
    obtain ⟨o1, start, h1, h2⟩ := loadBody_eq_ok hbody
    obtain ⟨hp, -⟩ := loadObjectHeaders_eq_ok h2
    rw [slotCount_eq_of_sameConfiguration (loadUntilHeaders_frame h1)] at hp
    exact ⟨o1, start, o2, s, h1, hbody, hp⟩

set_option maxRecDepth 100000 in
theorem load_slot_advance_witness :
    (∀ id s1, loadHeaderSlot sampleManager sampleLayout sampleData ⟨268, none, []⟩ =
        .ok (id, s1) → s1.pos = 268 + sampleLayout.sizeofObjectHeader) ∧
    loadHeaderSlot sampleManager sampleLayout sampleData ⟨268, none, []⟩ =
      .ok (3, ⟨284, none, [⟨sampleSlot 1⟩]⟩) ∧
    ∃ o1 start o2 s,
      loadUntilHeaders sampleManager sampleLayout sampleObject ⟨0⟩ sampleData = .ok (o1, start) ∧
      loadBody sampleManager sampleLayout sampleObject ⟨0⟩ sampleData (some ⟨[]⟩) =
        .ok (o2, s) ∧
      s.pos = start + slotCount sampleObject * sampleLayout.sizeofObjectHeader :=
  have h := load_slot_advance sampleManager sampleLayout sampleObject ⟨0⟩ sampleData (some ⟨[]⟩)
  ⟨fun id s1 => h.1 ⟨268, none, []⟩ s1 id, by rfl,
    h.2.2 ⟨sampleLoaded, some ⟨sampleHeaders⟩, sampleHeaders⟩ sample_load⟩

theorem anySlotPresent_iff (slots : List Nat) :
    anySlotPresent slots = true ↔ ∃ c ∈ slots, c ≠ 0xFF := by
  induction slots with
  | nil =>
    unfold anySlotPresent
    simp
  | cons x rest ih =>
    unfold anySlotPresent
    by_cases hx : x ≠ 0xFF
    · rw [if_pos hx]
      simp only [true_iff]
      exact ⟨x, List.mem_cons_self _ _, hx⟩
    · rw [if_neg hx, ih]
      have hx2 : x = 0xFF := not_not.mp hx
      constructor
      · rintro ⟨c, hc, hne⟩
        exact ⟨c, List.mem_cons_of_mem _ hc, hne⟩
      · rintro ⟨c, hc, hne⟩
        rw [List.mem_cons] at hc
        rcases hc with hc | hc
        · subst hc
          exact absurd hx2 hne
        · exact ⟨c, hc, hne⟩

/-- C20: `requiresCargo` returns true exactly when some `requiredCargoType` slot differs from
0xFF, and `producesCargo` likewise for `producedCargoType`; after `unload`, which fills the
slots with 0, both return true on every object whose two arrays have an entry. -/
theorem cargo_predicates (o : IndustryObject) :
    (requiresCargo o = true ↔ ∃ c ∈ o.requiredCargoType, c ≠ 0xFF) ∧
    (producesCargo o = true ↔ ∃ c ∈ o.producedCargoType, c ≠ 0xFF) ∧
    (o.requiredCargoType ≠ [] → requiresCargo (unload o) = true) ∧
    (o.producedCargoType ≠ [] → producesCargo (unload o) = true) := by
  refine ⟨anySlotPresent_iff _, anySlotPresent_iff _, ?_, ?_⟩
  · intro hne
    unfold requiresCargo
    rw [anySlotPresent_iff]
    cases hr : o.requiredCargoType with
    | nil => exact absurd hr hne
    | cons x rest =>
      refine ⟨0, ?_, by decide⟩
      unfold unload
      simp [hr]
  · intro hne
    unfold producesCargo
    rw [anySlotPresent_iff]
    cases hr : o.producedCargoType with
    | nil => exact absurd hr hne
    | cons x rest =>
      refine ⟨0, ?_, by decide⟩
      unfold unload
      simp [hr]

theorem cargo_predicates_witness :
    requiresCargo sampleLoaded = false ∧
    requiresCargo (unload sampleLoaded) = true ∧ producesCargo (unload sampleLoaded) = true :=
  ⟨by decide, (cargo_predicates sampleLoaded).2.2.1 (by decide),
    (cargo_predicates sampleLoaded).2.2.2 (by decide)⟩

end IndustryObject
end OpenLoco
